import Mathlib

/-!
GORM call-chain analyser: `function/local/gorm/analyze/gofile_meta.go`,
with `function/local/gorm/util/sort.go` and `model/set/map.go`.

A shallow embedding of the statement builder (`SQLBuilder`, `BuildSQL`), the
argument extractors, the table-name inference, the chain resolver
(`analyzeGormChain`), the per-line result map of `GofileMeta`, `SortInts` and
`NewSortedMap`, followed by theorems about them.

Conventions of the embedding.
* A Go `string` is a Lean `String`; `len` is the UTF-8 byte length and a
  `range` loop over a string walks its runes with their byte offsets.
* A Go method that mutates its receiver returns the new receiver next to its
  result (`BuildSQL : SQLBuilder → String × SQLBuilder`).
* `go/ast` expressions are the closed type `Expr`; node kinds that the
  analysed functions never tell apart are gathered under `Expr.Other`.
* The case table behind Go's `unicode.ToLower` is not part of the repository;
  every function that lowercases takes the non-ASCII part of that mapping as
  the parameter `lower`.
-/

namespace Gorm

/-! ## Strings (package `strings`, `fmt`) -/

/-- Go's `len(s)` for a string: the number of bytes of its UTF-8 encoding. -/
def len (s : String) : Nat :=
  (s.data.map Char.utf8Size).sum

/-- Go's `strings.Trim(s, cutset)`: drop every leading and every trailing rune
that occurs in `cutset`. -/
def Trim (s cutset : String) : String :=
  ⟨((s.data.dropWhile (fun c => cutset.data.contains c)).reverse.dropWhile
      (fun c => cutset.data.contains c)).reverse⟩

/-- The cutset of every `strings.Trim` call of the file: a double and a single
quote. -/
def quoteCutset : String := "\"'"

/-- Go's `strings.Contains(s, substr)`. -/
def Contains (s substr : String) : Bool :=
  s.data.tails.any (fun t => substr.data.isPrefixOf t)

/-- Go's `strings.Join(elems, sep)`. -/
def Join : List String → String → String
  | [], _ => ""
  | [a], _ => a
  | a :: b :: rest, sep => a ++ sep ++ Join (b :: rest) sep

/-- Lowercasing of one rune as `unicode.ToLower` does it: `A`..`Z` are shifted
to `a`..`z`, every other ASCII rune is kept, and a rune above ASCII goes
through the case table `lower`. -/
def lowerRune (lower : Char → Char) (c : Char) : Char :=
  if c.val < 128 then c.toLower else lower c

/-- Go's `strings.ToLower(s)`. -/
def ToLower (lower : Char → Char) (s : String) : String :=
  ⟨s.data.map (lowerRune lower)⟩

/-- The verb `%d` of `fmt.Sprintf` on an `int`. -/
def fmtInt (i : Int) : String :=
  toString i

/-! ## The `go/ast` expressions the analyser looks at -/

/-- The `token.Token` values carried by literals and unary expressions. -/
inductive Token where
  | INT | FLOAT | IMAG | CHAR | STRING
  | AND | ADD | SUB | NOT | XOR | ARROW | TILDE
deriving DecidableEq, Repr

/-- The `ast.Expr` node kinds. `BasicLit.value` is the literal's source text,
quotes included; `SelectorExpr.sel` and `Ident.name` are identifier names;
`CompositeLit.type` is `none` for an elided type. -/
inductive Expr where
  | BasicLit (kind : Token) (value : String)
  | Ident (name : String)
  | CallExpr (fn : Expr) (args : List Expr)
  | SelectorExpr (x : Expr) (sel : String)
  | UnaryExpr (op : Token) (x : Expr)
  | CompositeLit (type : Option Expr) (elts : List Expr)
  | KeyValueExpr (key : Expr) (value : Expr)
  | MapType (key : Expr) (value : Expr)
  | Other (tag : String)

/-- The type assertion `e.(*ast.CallExpr)` succeeds. -/
def Expr.isCall : Expr → Bool
  | .CallExpr _ _ => true
  | _ => false

/-- The shape `receiver.method(args)`: a call whose function is a selector. -/
def Expr.isQualifiedCall : Expr → Bool
  | .CallExpr (.SelectorExpr _ _) _ => true
  | _ => false

/-! ## The statement builder -/

/-- The constants of `SQLOperation`. -/
inductive SQLOperation where
  | SELECT | UPDATE | DELETE | INSERT
deriving DecidableEq, Repr

/-- The struct `SQLBuilder`. -/
structure SQLBuilder where
  Operation : SQLOperation
  Table : String
  Columns : String
  Where : List String
  OrderBy : List String
  GroupBy : List String
  Having : List String
  Joins : List String
  Limit : String
  Offset : String
  Updates : String
deriving DecidableEq, Repr

/-- The constructor `NewSQLBuilder`: operation `SELECT`, columns `*`, every
other field at its zero value. -/
def NewSQLBuilder : SQLBuilder :=
  { Operation := .SELECT, Table := "", Columns := "*", Where := [], OrderBy := [],
    GroupBy := [], Having := [], Joins := [], Limit := "", Offset := "", Updates := "" }

/-- The `switch sb.Operation` at the head of `BuildSQL`: the first part and the
receiver after the switch (the `UPDATE` and `INSERT` cases assign
`sb.Table = ""`). -/
def buildHead (sb : SQLBuilder) : List String × SQLBuilder :=
  match sb.Operation with
  | .SELECT =>
    if Contains sb.Columns "DISTINCT" then ([sb.Columns], sb)
    else (["SELECT " ++ sb.Columns], sb)
  | .UPDATE => (["UPDATE " ++ sb.Table ++ " SET " ++ sb.Updates], { sb with Table := "" })
  | .DELETE => (["DELETE"], sb)
  | .INSERT => (["INSERT INTO " ++ sb.Table], { sb with Table := "" })

/-- The clauses `BuildSQL` appends after the switch, read from the receiver as
the switch left it. -/
def buildClauses (sb : SQLBuilder) : List String :=
  (if sb.Table ≠ "" then ["FROM " ++ sb.Table] else []) ++
  (if sb.Joins.length > 0 then [Join sb.Joins " "] else []) ++
  (if sb.Where.length > 0 then ["WHERE " ++ Join sb.Where " AND "] else []) ++
  (if sb.GroupBy.length > 0 then ["GROUP BY " ++ Join sb.GroupBy ", "] else []) ++
  (if sb.Having.length > 0 then ["HAVING " ++ Join sb.Having " AND "] else []) ++
  (if sb.OrderBy.length > 0 then ["ORDER BY " ++ Join sb.OrderBy ", "] else []) ++
  (if sb.Limit ≠ "" then ["LIMIT " ++ sb.Limit] else []) ++
  (if sb.Offset ≠ "" then ["OFFSET " ++ sb.Offset] else [])

/-- The method `(*SQLBuilder).BuildSQL`: the rendered string and the receiver
as the call leaves it. -/
def BuildSQL (sb : SQLBuilder) : String × SQLBuilder :=
  let r := buildHead sb
  (Join (r.1 ++ buildClauses r.2) " ", r.2)

/-! ## Table-name inference and argument extractors -/

/-- The loop of `camelToSnake`: `i` is the byte offset of the rune `r`, as in
`for i, r := range s`. -/
def camelToSnakeLoop : Nat → List Char → List Char
  | _, [] => []
  | i, r :: rest =>
    (if i > 0 ∧ 'A' ≤ r ∧ r ≤ 'Z' then ['_', r] else [r]) ++
      camelToSnakeLoop (i + r.utf8Size) rest

/-- The function `camelToSnake`. -/
def camelToSnake (lower : Char → Char) (s : String) : String :=
  ToLower lower ⟨camelToSnakeLoop 0 s.data⟩

/-- The function `pluralize`. -/
def pluralize (s : String) : String :=
  s ++ "s"

/-- The function `getTypeNameFromCompositeLit`, on the `Type` field of the
literal. -/
def getTypeNameFromCompositeLit (lower : Char → Char) (type : Option Expr) : String :=
  match type with
  | some (.Ident name) => pluralize (camelToSnake lower name)
  | some (.SelectorExpr _ sel) => pluralize (camelToSnake lower sel)
  | _ => ""

/-- The function `extractTableName`. -/
def extractTableName (lower : Char → Char) (expr : Expr) : String :=
  match expr with
  | .UnaryExpr _ (.CompositeLit type _) => getTypeNameFromCompositeLit lower type
  | .CompositeLit type _ => getTypeNameFromCompositeLit lower type
  | .Ident name => ToLower lower name ++ "s"
  | _ => ""

/-- The function `extractStringArg`. -/
def extractStringArg (expr : Expr) : String :=
  match expr with
  | .BasicLit _ value => Trim value quoteCutset
  | .Ident name => name
  | _ => ""

/-- The function `extractLimitOffset`. -/
def extractLimitOffset (expr : Expr) : String :=
  match expr with
  | .BasicLit _ value => Trim value quoteCutset
  | .Ident name => name
  | .CallExpr _ _ => "?"
  | _ => ""

/-- The body of the loop of `extractUpdatesContent` at an index `i` with
`i+1 < len(comp.Elts)`: the fragment appended for the element `Elts[i]`. -/
def updatesPair (e : Expr) : List String :=
  match e with
  | .KeyValueExpr (.BasicLit _ keyValue) value =>
    let keyStr := Trim keyValue quoteCutset
    let valStr :=
      match value with
      | .BasicLit _ v => Trim v quoteCutset
      | _ => "?"
    [keyStr ++ " = " ++ valStr]
  | _ => []

/-- The loop `for i := 0; i < len(comp.Elts); i += 2` of
`extractUpdatesContent`, on the elements from index `i` on: the index advances
by two, and an element is looked at only when `i+1 < len(comp.Elts)`, that is
when another element follows it. -/
def updatesPairs : List Expr → List String
  | e :: _ :: rest => updatesPair e ++ updatesPairs rest
  | _ => []

/-- The function `extractUpdatesContent`. -/
def extractUpdatesContent (args : List Expr) : String :=
  match args with
  | [.CompositeLit (some (.MapType _ _)) elts] =>
    let pairs := updatesPairs elts
    if pairs.length > 0 then Join pairs ", " else "..."
  | _ => "..."

/-! ## The chain resolver -/

/-- The `switch methodName` of `analyzeGormChain`: the builder after the case
of `methodName` has run on the call's arguments. -/
def applyMethod (lower : Char → Char) (methodName : String) (args : List Expr)
    (builder : SQLBuilder) : SQLBuilder :=
  match methodName with
  | "Model" =>
    match args with
    | a :: _ =>
      let tableName := extractTableName lower a
      if tableName ≠ "" then { builder with Table := tableName } else builder
    | [] => builder
  | "Table" =>
    match args with
    | .BasicLit _ value :: _ => { builder with Table := Trim value quoteCutset }
    | _ => builder
  | "Where" | "And" | "Or" =>
    match args with
    | a :: _ =>
      let condition := extractStringArg a
      if condition ≠ "" then { builder with Where := builder.Where ++ [condition] } else builder
    | [] => builder
  | "Select" =>
    match args with
    | a :: _ =>
      let columns := extractStringArg a
      if columns ≠ "" then { builder with Columns := columns } else builder
    | [] => builder
  | "Order" =>
    match args with
    | a :: _ =>
      let order := extractStringArg a
      if order ≠ "" then { builder with OrderBy := builder.OrderBy ++ [order] } else builder
    | [] => builder
  | "Group" =>
    match args with
    | a :: _ =>
      let group := extractStringArg a
      if group ≠ "" then { builder with GroupBy := builder.GroupBy ++ [group] } else builder
    | [] => builder
  | "Having" =>
    match args with
    | a :: _ =>
      let having := extractStringArg a
      if having ≠ "" then { builder with Having := builder.Having ++ [having] } else builder
    | [] => builder
  | "Limit" =>
    match args with
    | a :: _ =>
      let limit := extractLimitOffset a
      if limit ≠ "" then { builder with Limit := limit } else builder
    | [] => builder
  | "Offset" =>
    match args with
    | a :: _ =>
      let offset := extractLimitOffset a
      if offset ≠ "" then { builder with Offset := offset } else builder
    | [] => builder
  | "Joins" | "InnerJoins" | "LeftJoins" | "RightJoins" =>
    match args with
    | a :: _ =>
      let join := extractStringArg a
      let joinType :=
        match methodName with
        | "InnerJoins" => "INNER JOIN"
        | "LeftJoins" => "LEFT JOIN"
        | "RightJoins" => "RIGHT JOIN"
        | _ => "JOIN"
      if join ≠ "" then { builder with Joins := builder.Joins ++ [joinType ++ " " ++ join] }
      else builder
    | [] => builder
  | "First" => { builder with Limit := "1" }
  | "Take" => { builder with Limit := "1" }
  | "Last" =>
    let builder :=
      if builder.OrderBy.length = 0 then { builder with OrderBy := builder.OrderBy ++ ["id DESC"] }
      else builder
    { builder with Limit := "1" }
  | "Find" => builder
  | "Count" =>
    let builder := { builder with Columns := "COUNT(*)" }
    match args with
    | .Ident name :: _ => { builder with Columns := builder.Columns ++ (" AS " ++ name) }
    | _ => builder
  | "Distinct" =>
    match args with
    | a :: _ =>
      let distinct := extractStringArg a
      if distinct ≠ "" then { builder with Columns := "SELECT DISTINCT " ++ distinct }
      else { builder with Columns := "DISTINCT " ++ builder.Columns }
    | [] => { builder with Columns := "DISTINCT " ++ builder.Columns }
  | "Delete" => { builder with Operation := .DELETE }
  | "Update" =>
    let builder := { builder with Operation := .UPDATE }
    match args with
    | a0 :: a1 :: _ =>
      let col := extractStringArg a0
      let val := extractStringArg a1
      if col ≠ "" ∧ val ≠ "" then { builder with Updates := col ++ " = " ++ val } else builder
    | _ => builder
  | "Updates" =>
    { builder with Operation := .UPDATE, Updates := extractUpdatesContent args }
  | "Create" | "CreateInBatches" => { builder with Operation := .INSERT }
  | _ => builder

/-- The function `analyzeGormChain`: its boolean result and the builder as the
call leaves it. -/
def analyzeGormChain (lower : Char → Char) : Expr → SQLBuilder → Bool × SQLBuilder
  | .CallExpr (.SelectorExpr x methodName) args, builder =>
    let builder := applyMethod lower methodName args builder
    match x with
    | .CallExpr fn a => (true, (analyzeGormChain lower (.CallExpr fn a) builder).2)
    | _ => (true, builder)
  | _, builder => (false, builder)

/-! ## The walker of `GofileMeta` and its per-line result map -/

/-- The map `results` of `GofileMeta`, from line number to formatted entry. -/
abbrev Results := List (Int × String)

/-- The lookup `results[line]` with its presence flag. -/
def Results.get (results : Results) (line : Int) : Option String :=
  match results with
  | [] => none
  | (k, v) :: rest => if k = line then some v else Results.get rest line

/-- The assignment `results[line] = entry`. -/
def Results.set (results : Results) (line : Int) (entry : String) : Results :=
  match results with
  | [] => [(line, entry)]
  | (k, v) :: rest =>
    if k = line then (k, entry) :: rest else (k, v) :: Results.set rest line entry

/-- The statement of the walker that records a rendering `sql` for `line`:
`if v, contains := results[line]; !contains || len(sql) > len(v)` then the
entry `filePath:line: sql` is stored. -/
def record (filePath : String) (line : Int) (results : Results) (sql : String) : Results :=
  match results.get line with
  | some v =>
    if len sql > len v then results.set line (filePath ++ ":" ++ fmtInt line ++ ": " ++ sql)
    else results
  | none => results.set line (filePath ++ ":" ++ fmtInt line ++ ": " ++ sql)

/-- The callback given to `ast.Inspect`, on a node that is an expression `n`
whose position is on `line`. -/
def visit (lower : Char → Char) (filePath : String) (results : Results)
    (n : Expr × Int) : Results :=
  if n.1.isCall then
    let r := analyzeGormChain lower n.1 NewSQLBuilder
    if r.1 then
      let sql := (BuildSQL r.2).1
      if sql ≠ "" then record filePath n.2 results sql else results
    else results
  else results

/-- The walk of `GofileMeta` over the nodes of a file in the order `ast.Inspect`
visits them, from the empty map. -/
def walk (lower : Char → Char) (filePath : String) (nodes : List (Expr × Int)) : Results :=
  nodes.foldl (visit lower filePath) []

/-! ## Chains and the inputs of the worked examples -/

/-- One link of a call chain: the method name and the argument expressions. -/
structure Link where
  method : String
  args : List Expr

/-- The expression of a chain on `root`; the links are listed from the
outermost call (the one written last) to the innermost. -/
def chainOf (root : Expr) : List Link → Expr
  | [] => root
  | l :: ls => .CallExpr (.SelectorExpr (chainOf root ls) l.method) l.args

/-- The method names that have a case in the switch of `analyzeGormChain`. -/
def recognized : List String :=
  ["Model", "Table", "Where", "And", "Or", "Select", "Order", "Group", "Having",
   "Limit", "Offset", "Joins", "InnerJoins", "LeftJoins", "RightJoins", "First",
   "Take", "Last", "Find", "Count", "Distinct", "Delete", "Update", "Updates",
   "Create", "CreateInBatches"]

/-- A double-quoted string literal with the text `s` between the quotes. -/
def strLit (s : String) : Expr :=
  .BasicLit .STRING ("\"" ++ s ++ "\"")

/-- The argument `&User{}`. -/
def userPtrLit : Expr :=
  .UnaryExpr .AND (.CompositeLit (some (.Ident "User")) [])

/-- The chain `r.Model(&User{}).Where("age > 18").Order("name").Limit(10)`. -/
def selectChain (r : Expr) : Expr :=
  .CallExpr (.SelectorExpr
    (.CallExpr (.SelectorExpr
      (.CallExpr (.SelectorExpr
        (.CallExpr (.SelectorExpr r "Model") [userPtrLit])
        "Where") [strLit "age > 18"])
      "Order") [strLit "name"])
    "Limit") [.BasicLit .INT "10"]

/-- The chain `r.Model(&User{}).Delete()`. -/
def deleteChain (r : Expr) : Expr :=
  .CallExpr (.SelectorExpr (.CallExpr (.SelectorExpr r "Model") [userPtrLit]) "Delete") []

/-- The chain `r.Table("orders").Count(total)`. -/
def countChain (r : Expr) : Expr :=
  .CallExpr (.SelectorExpr (.CallExpr (.SelectorExpr r "Table") [strLit "orders"]) "Count")
    [.Ident "total"]

/-- The chain `r.Model(&User{}).Update("name", "bob")`. -/
def updateChain (r : Expr) : Expr :=
  .CallExpr (.SelectorExpr (.CallExpr (.SelectorExpr r "Model") [userPtrLit]) "Update")
    [strLit "name", strLit "bob"]

/-- The builder state that `updateChain` leaves behind. -/
def updateUsers : SQLBuilder :=
  { NewSQLBuilder with Operation := .UPDATE, Table := "users", Updates := "name = bob" }

/-- The call `db.Table("orders")`. -/
def tableCall : Expr :=
  .CallExpr (.SelectorExpr (.Ident "db") "Table") [strLit "orders"]

/-- The call `db.Table("orders").First(&o)`. -/
def firstCall : Expr :=
  .CallExpr (.SelectorExpr tableCall "First") [.UnaryExpr .AND (.Ident "o")]

/-- The statement `fmt.Println(db.Table("orders").First(&o).Error)`. -/
def printlnCall : Expr :=
  .CallExpr (.SelectorExpr (.Ident "fmt") "Println") [.SelectorExpr firstCall "Error"]

/-- The chain `db.Model(&User{}).Session(cfg).Where("age > 18")`, outermost
link first, split around its `Session` link. -/
def sessionOuter : List Link :=
  [⟨"Where", [strLit "age > 18"]⟩]

/-- The `Session(cfg)` link. -/
def sessionLink : Link :=
  ⟨"Session", [.Ident "cfg"]⟩

/-- The links written before `Session`. -/
def sessionInner : List Link :=
  [⟨"Model", [userPtrLit]⟩]

/-! ## The snake-case rule as the specification words it

The specification speaks of uppercase letters. Which runes are uppercase
letters is the parameter `upper`: Go's `unicode.IsUpper`, whose table is no
more part of the repository than the one behind `unicode.ToLower`. -/

/-- An underscore is inserted before every uppercase letter of the text. -/
def underscoreBeforeUpper (upper : Char → Bool) : List Char → List Char
  | [] => []
  | c :: cs => (if upper c then ['_', c] else [c]) ++ underscoreBeforeUpper upper cs

/-- The specification's snake case: an underscore before every uppercase
letter except the first character of the name, then the whole string
lowercased. -/
def snakeCaseSpec (upper : Char → Bool) (lower : Char → Char) (name : String) : String :=
  match name.data with
  | [] => ToLower lower ""
  | c :: cs => ToLower lower ⟨c :: underscoreBeforeUpper upper cs⟩

/-- The specification's table name of a type name: `pluralize(snake_case(T))`
with the plural formed by appending `s`. -/
def tableNameSpec (upper : Char → Bool) (lower : Char → Char) (name : String) : String :=
  snakeCaseSpec upper lower name ++ "s"

/-- The uppercase letters among the runes below U+0100: `A`..`Z`, `À`..`Ö` and
`Ø`..`Þ`. -/
def latin1Upper (c : Char) : Bool :=
  c.isUpper || (0xC0 ≤ c.toNat && c.toNat ≤ 0xDE && c.toNat != 0xD7)

/-- The case table of `unicode.ToLower` on the runes from U+0080 to U+00FF:
the capital letters `À`..`Ö` and `Ø`..`Þ` move up by 32 to `à`..`ö` and
`ø`..`þ`, every other rune of that range is kept. The type name of the
example on `UserÉtat` has no rune above U+00FF, and this function keeps such
runes. -/
def latin1Lower (c : Char) : Char :=
  if 0xC0 ≤ c.toNat ∧ c.toNat ≤ 0xDE ∧ c.toNat ≠ 0xD7 then Char.ofNat (c.toNat + 32) else c

/-! ## Inputs of the worked examples on `Distinct`, `Updates` and quoting -/

/-- The builder state that `db.Model(&User{}).Distinct("name")` leaves behind. -/
def distinctNameUsers : SQLBuilder :=
  { NewSQLBuilder with Table := "users", Columns := "SELECT DISTINCT name" }

/-- The builder state that `db.Model(&User{}).Where("age > 18").Distinct("email")`
leaves behind. -/
def distinctEmailAdults : SQLBuilder :=
  { NewSQLBuilder with Table := "users", Columns := "SELECT DISTINCT email",
                       Where := ["age > 18"] }

/-- The builder state that `db.Model(&User{}).Distinct()` leaves behind. -/
def distinctStarUsers : SQLBuilder :=
  { NewSQLBuilder with Table := "users", Columns := "DISTINCT *" }

/-- The type `map[string]interface{}` of a map literal. -/
def mapStringAny : Expr :=
  .MapType (.Ident "string") (.Other "interface{}")

/-- The argument `map[string]interface{}{"name": "bob", "age": 18}`. -/
def nameAgeMap : Expr :=
  .CompositeLit (some mapStringAny)
    [.KeyValueExpr (strLit "name") (strLit "bob"),
     .KeyValueExpr (strLit "age") (.BasicLit .INT "18")]

/-- The argument `map[string]interface{}{"name": "bob"}`. -/
def nameMap : Expr :=
  .CompositeLit (some mapStringAny) [.KeyValueExpr (strLit "name") (strLit "bob")]

/-! ## The rendering as the specification words it -/

/-- The specification's operation clause: `SELECT <projection>`,
`UPDATE <table> SET <assignment>`, `DELETE`, `INSERT INTO <table>`. -/
def operationClauseSpec (sb : SQLBuilder) : String :=
  match sb.Operation with
  | .SELECT => "SELECT " ++ sb.Columns
  | .UPDATE => "UPDATE " ++ sb.Table ++ " SET " ++ sb.Updates
  | .DELETE => "DELETE"
  | .INSERT => "INSERT INTO " ++ sb.Table

/-- The specification's clause list: the operation clause, then each of the
clauses 2 to 9 unless its backing list or value is empty, `FROM` only for
`SELECT` and `DELETE`. -/
def clausesSpec (sb : SQLBuilder) : List String :=
  [operationClauseSpec sb] ++
  (if (sb.Operation = .SELECT ∨ sb.Operation = .DELETE) ∧ sb.Table ≠ ""
    then ["FROM " ++ sb.Table] else []) ++
  (if sb.Joins ≠ [] then [Join sb.Joins " "] else []) ++
  (if sb.Where ≠ [] then ["WHERE " ++ Join sb.Where " AND "] else []) ++
  (if sb.GroupBy ≠ [] then ["GROUP BY " ++ Join sb.GroupBy ", "] else []) ++
  (if sb.Having ≠ [] then ["HAVING " ++ Join sb.Having " AND "] else []) ++
  (if sb.OrderBy ≠ [] then ["ORDER BY " ++ Join sb.OrderBy ", "] else []) ++
  (if sb.Limit ≠ "" then ["LIMIT " ++ sb.Limit] else []) ++
  (if sb.Offset ≠ "" then ["OFFSET " ++ sb.Offset] else [])

/-- The specification's render: the clauses joined by single spaces. -/
def renderSpec (sb : SQLBuilder) : String :=
  Join (clausesSpec sb) " "

/-! ## What one link adds to the accumulating lists, read off the switch -/

/-- The token the switch reads from the first argument of a link: what
`extractStringArg` returns for it, when there is an argument and that string is
not empty. For a string literal this is the literal's source text after
`strings.Trim`, which need not be the text between its quotes. -/
def firstArgToken (l : Link) : Option String :=
  match l.args with
  | a :: _ => if extractStringArg a ≠ "" then some (extractStringArg a) else none
  | [] => none

/-- The predicate a link appends: the token of a `Where`, `And` or `Or` link. -/
def whereFragment (l : Link) : Option String :=
  if l.method = "Where" ∨ l.method = "And" ∨ l.method = "Or" then firstArgToken l else none

/-- The order fragment an `Order` link appends. -/
def orderFragment (l : Link) : Option String :=
  if l.method = "Order" then firstArgToken l else none

/-- The group fragment a `Group` link appends. -/
def groupFragment (l : Link) : Option String :=
  if l.method = "Group" then firstArgToken l else none

/-- The having fragment a `Having` link appends. -/
def havingFragment (l : Link) : Option String :=
  if l.method = "Having" then firstArgToken l else none

/-- The join fragment a link of the `Joins` family appends, with its keyword. -/
def joinFragment (l : Link) : Option String :=
  if l.method = "Joins" then (firstArgToken l).map (fun j => "JOIN" ++ " " ++ j)
  else if l.method = "InnerJoins" then (firstArgToken l).map (fun j => "INNER JOIN" ++ " " ++ j)
  else if l.method = "LeftJoins" then (firstArgToken l).map (fun j => "LEFT JOIN" ++ " " ++ j)
  else if l.method = "RightJoins" then (firstArgToken l).map (fun j => "RIGHT JOIN" ++ " " ++ j)
  else none

/-- The links of `db.Where("a = 1").Group("kind").Where("b = 2").Group("area")`
in source order. -/
def twoWheresSource : List Link :=
  [⟨"Where", [strLit "a = 1"]⟩, ⟨"Group", [strLit "kind"]⟩,
   ⟨"Where", [strLit "b = 2"]⟩, ⟨"Group", [strLit "area"]⟩]

/-! ## `function/local/gorm/util/sort.go` and `model/set/map.go`

Go's `sort.Slice` belongs to the standard library. On `int` and `string`
elements with `<` (or `>`) as `less`, the order is total, so the sorted
arrangement of a slice is unique and every correct sort returns it; the
embedding computes it by insertion. A Go map is the list of its key/value
pairs in the order a `range` loop meets them, with no key twice. -/

/-- Go's `sort.Slice(x, less)` for a `less` that is a strict total order: the
slice rearranged so that no element is `less` than an earlier one. -/
def sortSlice {α : Type} (less : α → α → Bool) (x : List α) : List α :=
  x.insertionSort (fun a b => less b a = false)

/-- The function `SortInts`: the returned slice, and the caller's slice `nums`
as the call leaves it. The result is a copy made by `make` and `copy`, and
`sort.Slice` rearranges that copy. -/
def SortInts (nums : List Int) (ascending : Bool) : List Int × List Int :=
  let result := nums
  if ascending then (sortSlice (fun a b => decide (a < b)) result, nums)
  else (sortSlice (fun a b => decide (a > b)) result, nums)

/-- Go's `a < b` on the rune sequences of two strings: the first differing
position decides, and a proper initial segment is smaller. Go compares the
bytes; on UTF-8 text the order of the bytes is the order of the runes. -/
def lexLess : List Char → List Char → Bool
  | _, [] => false
  | [], _ :: _ => true
  | a :: as, b :: bs => if a < b then true else if b < a then false else lexLess as bs

/-- Go's `a < b` on strings. -/
def stringLess (a b : String) : Bool :=
  lexLess a.data b.data

/-- The key types `sortKeys` tells apart by its type assertions, for the key
type `K` of the map: `string`, `int`, or a type for which no assertion
succeeds. The `float64` case is left out of the embedding. -/
inductive KeyKind : Type → Type 1 where
  | string : KeyKind String
  | int : KeyKind Int
  | other {K : Type} : KeyKind K

/-- The function `sortKeys`: the slice of keys as the call leaves it. -/
def sortKeys {K : Type} (kind : KeyKind K) (keys : List K) : List K :=
  match kind with
  | .string => sortSlice stringLess keys
  | .int => sortSlice (fun a b => decide (a < b)) keys
  | .other => keys

/-- The struct `SortedMap`. -/
structure SortedMap (K V : Type) where
  Original : List (K × V)
  SortedKeys : List K

/-- The function `NewSortedMap`. -/
def NewSortedMap {K V : Type} (kind : KeyKind K) (original : List (K × V)) : SortedMap K V :=
  let keys := original.map Prod.fst
  if keys.length = 0 then { Original := original, SortedKeys := keys }
  else { Original := original, SortedKeys := sortKeys kind keys }

/-- The index expression `m[key]` with its presence flag. -/
def mapGet {K V : Type} [DecidableEq K] (m : List (K × V)) (key : K) : Option V :=
  match m with
  | [] => none
  | (k, v) :: rest => if k = key then some v else mapGet rest key

/-- The map of `TestNewSortedMap_StringKeys`. -/
def fruitMap : List (String × Int) :=
  [("banana", 5), ("apple", 2), ("grape", 8), ("pear", 3)]

/-- The map of `TestNewSortedMap_IntKeys`. -/
def numberMap : List (Int × String) :=
  [(3, "three"), (1, "one"), (2, "two")]

/-- A `less` that is a strict total order: asymmetric, transitive on its
complement, and deciding between any two different elements. -/
structure StrictTotal {α : Type} (less : α → α → Bool) : Prop where
  asymm : ∀ a b, less a b = true → less b a = false
  negTrans : ∀ a b c, less b a = false → less c b = false → less c a = false
  connected : ∀ a b, less b a = false → a ≠ b → less a b = true

/-! ## The input of the worked example on `Last` -/

/-- The chain `r.Order(arg).Last()`. -/
def orderLastChain (r arg : Expr) : Expr :=
  .CallExpr (.SelectorExpr (.CallExpr (.SelectorExpr r "Order") [arg]) "Last") []

/-! ## Chains as the claims on accumulation describe them -/

/-- A text that is not empty and whose first and last characters are no quote
characters: the text of a double-quoted literal that `strings.Trim` with the
cutset of the file returns whole. -/
def cleanText (w : String) : Bool :=
  match w.data.head?, w.data.getLast? with
  | some a, some z => !quoteCutset.data.contains a && !quoteCutset.data.contains z
  | _, _ => false

/-- The methods whose case appends to one of the accumulating lists. -/
def accumulating : List String :=
  ["Where", "And", "Or", "Order", "Group", "Having", "Joins", "InnerJoins", "LeftJoins",
   "RightJoins"]

/-- A link of a chain as it is written in the source: a call whose first
argument is the double-quoted string literal with the text `text`, or any other
call. -/
inductive SourceLink where
  | literal (method : String) (text : String) (rest : List Expr)
  | call (method : String) (args : List Expr)

/-- The link of the expression tree that a written link stands for. -/
def SourceLink.link : SourceLink → Link
  | .literal m w rest => ⟨m, strLit w :: rest⟩
  | .call m args => ⟨m, args⟩

/-- The premise on a written link: a string literal has a clean text, and a
call that is not written with a string literal is no call of an accumulating
method. -/
def SourceLink.plain : SourceLink → Bool
  | .literal _ w _ => cleanText w
  | .call m _ => !accumulating.contains m

/-- The text of the string literal of a written link, when the link is a call of
one of the given methods. -/
def SourceLink.textFor (methods : List String) : SourceLink → Option String
  | .literal m w _ => if methods.contains m then some w else none
  | .call _ _ => none

/-- The texts of the string literals of the calls of the given methods, in the
order in which the calls are written. -/
def textsOf (methods : List String) (src : List SourceLink) : List String :=
  src.filterMap (SourceLink.textFor methods)

/-- The keyword of a method of the `Joins` family. -/
def joinKeyword (m : String) : Option String :=
  if m = "Joins" then some "JOIN"
  else if m = "InnerJoins" then some "INNER JOIN"
  else if m = "LeftJoins" then some "LEFT JOIN"
  else if m = "RightJoins" then some "RIGHT JOIN"
  else none

/-- The join fragment of a written link of the `Joins` family: the keyword, a
space and the literal's text. -/
def SourceLink.joinText : SourceLink → Option String
  | .literal m w _ => (joinKeyword m).map (fun k => k ++ " " ++ w)
  | .call _ _ => none

/-- The join fragments of the calls of the `Joins` family, in the order in
which the calls are written. -/
def joinTextsOf (src : List SourceLink) : List String :=
  src.filterMap SourceLink.joinText

/-- The links of
`db.Where("a = 1").Group("kind").Session(cfg).Where("b = 2", x).Joins("JOIN t").Group("area")`
as written. -/
def twoWheresWritten : List SourceLink :=
  [.literal "Where" "a = 1" [], .literal "Group" "kind" [], .call "Session" [.Ident "cfg"],
   .literal "Where" "b = 2" [.Ident "x"], .literal "LeftJoins" "teams t" [],
   .literal "Group" "area" []]

/-- The links of `db.Order("age").Order("name").Last()`, outermost first. -/
def twoOrdersLast : List Link :=
  [⟨"Last", []⟩, ⟨"Order", [strLit "name"]⟩, ⟨"Order", [strLit "age"]⟩]

/-! ## Lemmas on the chain resolver -/

/-- The boolean result of `analyzeGormChain` is the shape test alone. -/
theorem analyzeGormChain_fst (lower : Char → Char) (e : Expr) (b : SQLBuilder) :
    (analyzeGormChain lower e b).1 = e.isQualifiedCall := by
  unfold analyzeGormChain
  split
  · split <;> rfl
  · rename_i h
    cases e with
    | CallExpr fn args =>
      cases fn with
      | SelectorExpr x sel => exact absurd rfl (h x sel args)
      | _ => rfl
    | _ => rfl

/-- One step of the resolver: the case of the outer method runs, then the
receiver is resolved (a receiver that is not a qualified call changes
nothing). -/
theorem analyzeGormChain_call_selector (lower : Char → Char) (x : Expr) (m : String)
    (args : List Expr) (b : SQLBuilder) :
    analyzeGormChain lower (.CallExpr (.SelectorExpr x m) args) b
      = (true, (analyzeGormChain lower x (applyMethod lower m args b)).2) := by
  cases x <;> simp [analyzeGormChain]

/-- On an expression that is not a qualified call the resolver returns false
and the builder it was given. -/
theorem analyzeGormChain_not_qualified (lower : Char → Char) (r : Expr) (b : SQLBuilder)
    (h : r.isQualifiedCall = false) : analyzeGormChain lower r b = (false, b) := by
  unfold analyzeGormChain
  split
  · simp [Expr.isQualifiedCall] at h
  · rfl

/-- An expression that is not a call is not a qualified call. -/
theorem isQualifiedCall_of_not_isCall (e : Expr) (h : e.isCall = false) :
    e.isQualifiedCall = false := by
  cases e <;> simp_all [Expr.isCall, Expr.isQualifiedCall]

/-- A method name without a case in the switch leaves the builder as it is. -/
theorem applyMethod_unrecognized (lower : Char → Char) (m : String) (args : List Expr)
    (b : SQLBuilder) (h : m ∉ recognized) : applyMethod lower m args b = b := by
  simp only [recognized, List.mem_cons, List.mem_singleton, List.not_mem_nil, or_false,
    not_or] at h
  unfold applyMethod
  split <;> first | rfl | simp_all

/-- Only the cases `Select`, `Distinct` and `Count` write the projection. -/
theorem applyMethod_columns (lower : Char → Char) (m : String) (args : List Expr)
    (b : SQLBuilder) (h : m ≠ "Select" ∧ m ≠ "Distinct" ∧ m ≠ "Count") :
    (applyMethod lower m args b).Columns = b.Columns := by
  obtain ⟨h1, h2, h3⟩ := h
  unfold applyMethod
  split
  all_goals first
    | rfl
    | contradiction
    | (split <;> (try dsimp only) <;> (try split) <;> (try dsimp only))

/-- A chain without `Select`, `Distinct` and `Count` links leaves the
projection of the builder it starts from. -/
theorem chainOf_columns (lower : Char → Char) (root : Expr) (links : List Link)
    (hroot : root.isQualifiedCall = false)
    (h : ∀ l ∈ links, l.method ≠ "Select" ∧ l.method ≠ "Distinct" ∧ l.method ≠ "Count")
    (b : SQLBuilder) :
    (analyzeGormChain lower (chainOf root links) b).2.Columns = b.Columns := by
  induction links generalizing b with
  | nil => simp only [chainOf, analyzeGormChain_not_qualified lower root b hroot]
  | cons l ls ih =>
    simp only [chainOf, analyzeGormChain_call_selector]
    rw [ih (fun l' hl' => h l' (List.mem_cons_of_mem _ hl'))]
    exact applyMethod_columns lower l.method l.args b (h l (List.mem_cons_self _ _))

/-! ## Lemmas on rendering and on the result map -/

/-- The first element of a join starts the joined string. -/
theorem Join_cons_starts (a : String) (rest : List String) (sep : String) :
    a.data <+: (Join (a :: rest) sep).data := by
  cases rest with
  | nil => exact ⟨[], List.append_nil _⟩
  | cons b rest =>
    simp only [Join, String.data_append, List.append_assoc]
    exact ⟨_, rfl⟩

/-- The `SELECT` and `DELETE` cases of `BuildSQL` leave the receiver as it
was. -/
theorem BuildSQL_keeps_select_delete (sb : SQLBuilder)
    (h : sb.Operation = .SELECT ∨ sb.Operation = .DELETE) : (BuildSQL sb).2 = sb := by
  rcases h with h | h
  · simp only [BuildSQL, buildHead, h]; split <;> rfl
  · simp only [BuildSQL, buildHead, h]

/-- For a `SELECT` or `DELETE` builder a second render repeats the first. -/
theorem BuildSQL_twice_select_delete (sb : SQLBuilder)
    (h : sb.Operation = .SELECT ∨ sb.Operation = .DELETE) :
    (BuildSQL (BuildSQL sb).2).1 = (BuildSQL sb).1 := by
  rw [BuildSQL_keeps_select_delete sb h]

/-- The chain `db.Model(&User{}).Update("name", "bob")` reaches the state
`updateUsers`. -/
theorem updateChain_state (lower : Char → Char) :
    (analyzeGormChain lower (updateChain (.Ident "db")) NewSQLBuilder).2 = updateUsers := by
  rfl

/-- Byte length is additive over concatenation. -/
theorem len_append (a b : String) : len (a ++ b) = len a + len b := by
  simp [len, String.data_append]

/-- What the walker compares: with an entry for the rendering `kept` already
stored for the line, a new rendering `sql` replaces it exactly when `sql` is
longer than the whole stored entry, path and line number included. -/
theorem record_existing (filePath : String) (line : Int) (results : Results) (kept sql : String)
    (h : results.get line = some (filePath ++ ":" ++ fmtInt line ++ ": " ++ kept)) :
    record filePath line results sql
      = if len sql > len filePath + len (fmtInt line) + 3 + len kept
        then results.set line (filePath ++ ":" ++ fmtInt line ++ ": " ++ sql)
        else results := by
  have h1 : len ":" = 1 := by decide
  have h2 : len ": " = 2 := by decide
  have hl : len (filePath ++ ":" ++ fmtInt line ++ ": " ++ kept)
      = len filePath + len (fmtInt line) + 3 + len kept := by
    simp only [len_append, h1, h2]; omega
  simp only [record, h, hl]

/-- The callback on a qualified call: the chain is resolved into a fresh
builder, rendered, and a non-empty rendering is recorded. -/
theorem visit_qualified (lower : Char → Char) (filePath : String) (results : Results)
    (e : Expr) (line : Int) (h : e.isQualifiedCall = true) :
    visit lower filePath results (e, line)
      = if (BuildSQL (analyzeGormChain lower e NewSQLBuilder).2).1 ≠ ""
        then record filePath line results (BuildSQL (analyzeGormChain lower e NewSQLBuilder).2).1
        else results := by
  have hc : e.isCall = true := by
    cases e <;> simp_all [Expr.isCall, Expr.isQualifiedCall]
  simp [visit, hc, analyzeGormChain_fst, h]

/-- The renderings of lengths 20, 35 and 50 of the specification's example,
recorded in that order for one line of a file with a 33-byte path, leave the
20-byte rendering in the map. -/
theorem record_lengths_20_35_50 :
    len "SELECT * FROM orders" = 20 ∧
    len "SELECT * FROM orders WHERE paid = 1" = 35 ∧
    len "SELECT * FROM orders WHERE paid = 1 ORDER BY total" = 50 ∧
    record "internal/repository/order_repo.go" 7
      (record "internal/repository/order_repo.go" 7
        (record "internal/repository/order_repo.go" 7 [] "SELECT * FROM orders")
        "SELECT * FROM orders WHERE paid = 1")
      "SELECT * FROM orders WHERE paid = 1 ORDER BY total"
      = [(7, "internal/repository/order_repo.go:7: SELECT * FROM orders")] := by
  decide

/-! ## The snake-case loop against the specification's wording -/

/-- Past the first rune the byte offset is positive, so the loop inserts an
underscore before each of `A`..`Z`, and before no other rune. -/
theorem camelToSnakeLoop_pos (i : Nat) (hi : 0 < i) (cs : List Char) :
    camelToSnakeLoop i cs = underscoreBeforeUpper Char.isUpper cs := by
  induction cs generalizing i with
  | nil => rfl
  | cons c cs ih =>
    have hc : ('A' ≤ c ∧ c ≤ 'Z') ↔ c.isUpper = true := by
      simp [Char.isUpper, Char.le_def]
    simp only [camelToSnakeLoop, underscoreBeforeUpper]
    rw [ih (i + c.utf8Size) (by omega)]
    by_cases hu : c.isUpper = true
    · simp [hu, hc, hi]
    · simp [hu, hc]

/-- The function `camelToSnake` computes the specification's snake case with
`A`..`Z` for the uppercase letters. -/
theorem camelToSnake_eq_spec (lower : Char → Char) (name : String) :
    camelToSnake lower name = snakeCaseSpec Char.isUpper lower name := by
  unfold camelToSnake snakeCaseSpec
  cases h : name.data with
  | nil => rfl
  | cons c cs =>
    simp only [camelToSnakeLoop]
    rw [camelToSnakeLoop_pos _ (by have := Char.utf8Size_pos c; omega)]
    simp

/-! ## The claims -/

/-- C1 (evaluation at the failing input): on the `UPDATE` builder reached by
`db.Model(&User{}).Update("name", "bob")`, the first `BuildSQL` returns
`UPDATE users SET name = bob` and, because that call cleared the table, the
second returns `UPDATE  SET name = bob`: two renders in a row differ. -/
theorem BuildSQL_update_twice_differs :
    (BuildSQL updateUsers).1 = "UPDATE users SET name = bob" ∧
    (BuildSQL (BuildSQL updateUsers).2).1 = "UPDATE  SET name = bob" ∧
    (BuildSQL updateUsers).1 ≠ (BuildSQL (BuildSQL updateUsers).2).1 := by
  decide

/-- C2 (evaluation at the failing input): in `internal/repo/order.go`, line 7
holds `fmt.Println(db.Table("orders").First(&o).Error)`. The walker meets the
`Println` call first (rendering `SELECT *`, 8 bytes), then the chain ending in
`First` (rendering `SELECT * FROM orders LIMIT 1`, 28 bytes). The longer
rendering does not replace the shorter one: the map keeps the `SELECT *`
entry. -/
theorem walk_keeps_shorter (lower : Char → Char) :
    (BuildSQL (analyzeGormChain lower printlnCall NewSQLBuilder).2).1 = "SELECT *" ∧
    (BuildSQL (analyzeGormChain lower firstCall NewSQLBuilder).2).1
      = "SELECT * FROM orders LIMIT 1" ∧
    walk lower "internal/repo/order.go" [(printlnCall, 7), (firstCall, 7), (tableCall, 7)]
      = [(7, "internal/repo/order.go:7: SELECT *")] := by
  have s1 : (analyzeGormChain lower printlnCall NewSQLBuilder).2 = NewSQLBuilder := rfl
  have s2 : (analyzeGormChain lower firstCall NewSQLBuilder).2
      = { NewSQLBuilder with Table := "orders", Limit := "1" } := rfl
  have s3 : (analyzeGormChain lower tableCall NewSQLBuilder).2
      = { NewSQLBuilder with Table := "orders" } := rfl
  simp only [walk, List.foldl, visit_qualified lower _ _ printlnCall 7 rfl,
    visit_qualified lower _ _ firstCall 7 rfl, visit_qualified lower _ _ tableCall 7 rfl, s1, s2, s3]
  decide

/-- Two readings of "uppercase letter" that agree on every character of a
text insert the same underscores. -/
theorem underscoreBeforeUpper_congr (upper upper' : Char → Bool) (cs : List Char)
    (h : ∀ c ∈ cs, upper c = upper' c) :
    underscoreBeforeUpper upper cs = underscoreBeforeUpper upper' cs := by
  induction cs with
  | nil => rfl
  | cons c cs ih =>
    simp only [underscoreBeforeUpper]
    rw [h c (List.mem_cons_self _ _), ih (fun d hd => h d (List.mem_cons_of_mem _ hd))]

/-- C3 (counterexample): `UserÉtat` is a type name whose fifth character is the
uppercase letter `É`. On `UserÉtat{}` the code returns `userétats`, with no
underscore before `É`, where an underscore before every uppercase letter
except the first character gives `user_états`. -/
theorem extractTableName_counterexample :
    latin1Upper 'É' = true ∧
    extractTableName latin1Lower (.CompositeLit (some (.Ident "UserÉtat")) []) = "userétats" ∧
    tableNameSpec latin1Upper latin1Lower "UserÉtat" = "user_états" ∧
    extractTableName latin1Lower (.CompositeLit (some (.Ident "UserÉtat")) [])
      ≠ tableNameSpec latin1Upper latin1Lower "UserÉtat" := by
  decide

/-- C3 (amended): for every type name `T`, `extractTableName` on the struct
literal `T{...}` and on `&T{...}` returns `pluralize(snake_case(T))`, where
`snake_case` inserts an underscore before every letter `A`..`Z` except the
first character of the name and then lowercases the whole string, and
`pluralize` appends `s`. So the rule with "every uppercase letter" holds for
every `T` whose characters after the first are uppercase letters only when
they are in `A`..`Z`. `UserAccount` gives `user_accounts` and `Order` gives
`orders`. -/
theorem extractTableName_struct_literal (lower : Char → Char) (T : String) (elts : List Expr) :
    extractTableName lower (.CompositeLit (some (.Ident T)) elts)
      = tableNameSpec Char.isUpper lower T ∧
    extractTableName lower (.UnaryExpr .AND (.CompositeLit (some (.Ident T)) elts))
      = tableNameSpec Char.isUpper lower T ∧
    (∀ upper : Char → Bool, (∀ c ∈ T.data.tail, upper c = c.isUpper) →
      extractTableName lower (.CompositeLit (some (.Ident T)) elts) = tableNameSpec upper lower T ∧
      extractTableName lower (.UnaryExpr .AND (.CompositeLit (some (.Ident T)) elts))
        = tableNameSpec upper lower T) ∧
    extractTableName lower (.CompositeLit (some (.Ident "UserAccount")) []) = "user_accounts" ∧
    extractTableName lower (.UnaryExpr .AND (.CompositeLit (some (.Ident "UserAccount")) []))
      = "user_accounts" ∧
    extractTableName lower (.CompositeLit (some (.Ident "Order")) []) = "orders" ∧
    extractTableName lower (.UnaryExpr .AND (.CompositeLit (some (.Ident "Order")) []))
      = "orders" := by
  have hcode : extractTableName lower (.CompositeLit (some (.Ident T)) elts)
      = tableNameSpec Char.isUpper lower T ∧
      extractTableName lower (.UnaryExpr .AND (.CompositeLit (some (.Ident T)) elts))
        = tableNameSpec Char.isUpper lower T := by
    constructor <;>
      simp only [extractTableName, getTypeNameFromCompositeLit, pluralize, tableNameSpec,
        camelToSnake_eq_spec]
  refine ⟨hcode.1, hcode.2, fun upper hup => ?_, rfl, rfl, rfl, rfl⟩
  have hspec : tableNameSpec upper lower T = tableNameSpec Char.isUpper lower T := by
    unfold tableNameSpec snakeCaseSpec
    cases hT : T.data with
    | nil => rfl
    | cons c cs =>
      simp only
      rw [underscoreBeforeUpper_congr upper Char.isUpper cs
        (fun d hd => hup d (by rw [hT]; exact hd))]
  rw [hspec]
  exact hcode

/-- C3 (amended) at `UserAccount`, with the uppercase letters of the runes
below U+0100. -/
theorem extractTableName_struct_literal_witness :
    (∀ c ∈ ("UserAccount" : String).data.tail, latin1Upper c = c.isUpper) ∧
    extractTableName latin1Lower (.CompositeLit (some (.Ident "UserAccount")) [])
      = tableNameSpec latin1Upper latin1Lower "UserAccount" ∧
    extractTableName latin1Lower (.UnaryExpr .AND (.CompositeLit (some (.Ident "UserAccount")) []))
      = tableNameSpec latin1Upper latin1Lower "UserAccount" :=
  ⟨by decide,
   (extractTableName_struct_literal latin1Lower "UserAccount" []).2.2.1 latin1Upper (by decide)⟩

/-- The state the chain of C4 reaches from a fresh builder. -/
theorem selectChain_state (lower : Char → Char) (r : Expr) (h : r.isCall = false) :
    (analyzeGormChain lower (selectChain r) NewSQLBuilder).2
      = { NewSQLBuilder with Table := "users", Where := ["age > 18"], OrderBy := ["name"],
                             Limit := "10" } := by
  simp only [selectChain, analyzeGormChain_call_selector,
    analyzeGormChain_not_qualified lower r _ (isQualifiedCall_of_not_isCall r h)]
  rfl

/-- C4: on any root that is not a call, resolving the chain
`r.Model(&User{}).Where("age > 18").Order("name").Limit(10)` into a fresh
builder returns true, and `BuildSQL` then returns
`SELECT * FROM users WHERE age > 18 ORDER BY name LIMIT 10`. -/
theorem selectChain_renders (lower : Char → Char) (r : Expr) (h : r.isCall = false) :
    (analyzeGormChain lower (selectChain r) NewSQLBuilder).1 = true ∧
    (BuildSQL (analyzeGormChain lower (selectChain r) NewSQLBuilder).2).1
      = "SELECT * FROM users WHERE age > 18 ORDER BY name LIMIT 10" := by
  refine ⟨by rw [analyzeGormChain_fst]; rfl, ?_⟩
  rw [selectChain_state lower r h]
  decide

/-- C4 at the root `db`. -/
theorem selectChain_renders_witness :
    (Expr.Ident "db").isCall = false ∧
    (analyzeGormChain id (selectChain (.Ident "db")) NewSQLBuilder).1 = true ∧
    (BuildSQL (analyzeGormChain id (selectChain (.Ident "db")) NewSQLBuilder).2).1
      = "SELECT * FROM users WHERE age > 18 ORDER BY name LIMIT 10" :=
  ⟨rfl, selectChain_renders id (.Ident "db") rfl⟩

/-- The state the chain of C5 reaches from a fresh builder. -/
theorem deleteChain_state (lower : Char → Char) (r : Expr) (h : r.isCall = false) :
    (analyzeGormChain lower (deleteChain r) NewSQLBuilder).2
      = { NewSQLBuilder with Operation := .DELETE, Table := "users" } := by
  simp only [deleteChain, analyzeGormChain_call_selector,
    analyzeGormChain_not_qualified lower r _ (isQualifiedCall_of_not_isCall r h)]
  rfl

/-- C5: on any root that is not a call, resolving `r.Model(&User{}).Delete()`
into a fresh builder and rendering it returns `DELETE FROM users`. -/
theorem deleteChain_renders (lower : Char → Char) (r : Expr) (h : r.isCall = false) :
    (BuildSQL (analyzeGormChain lower (deleteChain r) NewSQLBuilder).2).1
      = "DELETE FROM users" := by
  rw [deleteChain_state lower r h]
  decide

/-- C5 at the root `s.db`. -/
theorem deleteChain_renders_witness :
    (Expr.SelectorExpr (.Ident "s") "db").isCall = false ∧
    (BuildSQL (analyzeGormChain id (deleteChain (.SelectorExpr (.Ident "s") "db"))
      NewSQLBuilder).2).1 = "DELETE FROM users" :=
  ⟨rfl, deleteChain_renders id (.SelectorExpr (.Ident "s") "db") rfl⟩

/-- The state the chain of C6 reaches from a fresh builder. -/
theorem countChain_state (lower : Char → Char) (r : Expr) (h : r.isCall = false) :
    (analyzeGormChain lower (countChain r) NewSQLBuilder).2
      = { NewSQLBuilder with Table := "orders", Columns := "COUNT(*) AS total" } := by
  simp only [countChain, analyzeGormChain_call_selector,
    analyzeGormChain_not_qualified lower r _ (isQualifiedCall_of_not_isCall r h)]
  rfl

/-- C6: on any root that is not a call, resolving `r.Table("orders").Count(total)`
with the identifier argument `total` into a fresh builder and rendering it
returns `SELECT COUNT(*) AS total FROM orders`. -/
theorem countChain_renders (lower : Char → Char) (r : Expr) (h : r.isCall = false) :
    (BuildSQL (analyzeGormChain lower (countChain r) NewSQLBuilder).2).1
      = "SELECT COUNT(*) AS total FROM orders" := by
  rw [countChain_state lower r h]
  decide

/-- C6 at the root `tx`. -/
theorem countChain_renders_witness :
    (Expr.Ident "tx").isCall = false ∧
    (BuildSQL (analyzeGormChain id (countChain (.Ident "tx")) NewSQLBuilder).2).1
      = "SELECT COUNT(*) AS total FROM orders" :=
  ⟨rfl, countChain_renders id (.Ident "tx") rfl⟩

/-- C7: `analyzeGormChain` returns true exactly on a call whose function is a
selector, whatever the method name, and whenever it returns false the builder
is the one it was given. -/
theorem analyzeGormChain_result (lower : Char → Char) (e : Expr) (b : SQLBuilder) :
    ((analyzeGormChain lower e b).1 = true ↔ e.isQualifiedCall = true) ∧
    (∀ x m args, (analyzeGormChain lower (.CallExpr (.SelectorExpr x m) args) b).1 = true) ∧
    ((analyzeGormChain lower e b).1 = false → (analyzeGormChain lower e b).2 = b) := by
  refine ⟨by rw [analyzeGormChain_fst], ?_, ?_⟩
  · intro x m args
    rw [analyzeGormChain_call_selector]
  · intro h
    rw [analyzeGormChain_fst] at h
    rw [analyzeGormChain_not_qualified lower e b h]

/-- C7 at the call `panic("boom")`, whose function is a plain identifier, with
a builder that is not the fresh one. -/
theorem analyzeGormChain_result_witness :
    (analyzeGormChain id (.CallExpr (.Ident "panic") [strLit "boom"]) updateUsers).1 = false ∧
    (analyzeGormChain id (.CallExpr (.Ident "panic") [strLit "boom"]) updateUsers).2
      = updateUsers :=
  ⟨rfl, (analyzeGormChain_result id (.CallExpr (.Ident "panic") [strLit "boom"])
    updateUsers).2.2 rfl⟩

/-- C8: a link whose method name has no case in the switch, anywhere in a
chain and with any arguments, changes nothing: the resolver returns true and
leaves the builder in the state it reaches on the chain without that link, so
both chains render to the same string. -/
theorem unrecognized_link_removed (lower : Char → Char) (root : Expr) (outer inner : List Link)
    (l : Link) (b : SQLBuilder) (h : l.method ∉ recognized) :
    (analyzeGormChain lower (chainOf root (outer ++ l :: inner)) b).1 = true ∧
    (analyzeGormChain lower (chainOf root (outer ++ l :: inner)) b).2
      = (analyzeGormChain lower (chainOf root (outer ++ inner)) b).2 ∧
    (BuildSQL (analyzeGormChain lower (chainOf root (outer ++ l :: inner)) b).2).1
      = (BuildSQL (analyzeGormChain lower (chainOf root (outer ++ inner)) b).2).1 := by
  have key : ∀ b, (analyzeGormChain lower (chainOf root (outer ++ l :: inner)) b).2
      = (analyzeGormChain lower (chainOf root (outer ++ inner)) b).2 := by
    induction outer with
    | nil =>
      intro b
      simp only [List.nil_append, chainOf, analyzeGormChain_call_selector,
        applyMethod_unrecognized lower l.method l.args b h]
    | cons o os ih =>
      intro b
      simp only [List.cons_append, chainOf, analyzeGormChain_call_selector]
      exact ih _
  refine ⟨?_, key b, by rw [key b]⟩
  cases outer <;> simp only [List.nil_append, List.cons_append, chainOf,
    analyzeGormChain_call_selector]

/-- C8 on `db.Model(&User{}).Session(cfg).Where("age > 18")` against
`db.Model(&User{}).Where("age > 18")`. -/
theorem unrecognized_link_removed_witness :
    sessionLink.method ∉ recognized ∧
    (analyzeGormChain id (chainOf (.Ident "db") (sessionOuter ++ sessionLink :: sessionInner))
      NewSQLBuilder).1 = true ∧
    (analyzeGormChain id (chainOf (.Ident "db") (sessionOuter ++ sessionLink :: sessionInner))
      NewSQLBuilder).2
      = (analyzeGormChain id (chainOf (.Ident "db") (sessionOuter ++ sessionInner))
          NewSQLBuilder).2 ∧
    (BuildSQL (analyzeGormChain id
      (chainOf (.Ident "db") (sessionOuter ++ sessionLink :: sessionInner)) NewSQLBuilder).2).1
      = (BuildSQL (analyzeGormChain id (chainOf (.Ident "db") (sessionOuter ++ sessionInner))
          NewSQLBuilder).2).1 :=
  ⟨by decide, unrecognized_link_removed id (.Ident "db") sessionOuter sessionInner sessionLink
    NewSQLBuilder (by decide)⟩

/-- C9: a chain of qualified calls none of which is named `Select`, `Distinct`
or `Count`, resolved into a fresh builder, leaves the projection at `*`; and
when the operation is still `SELECT`, the first clause of the rendering is
exactly `SELECT *`, so the output of `BuildSQL` begins with `SELECT *`. -/
theorem default_projection (lower : Char → Char) (root : Expr) (links : List Link)
    (hroot : root.isQualifiedCall = false)
    (h : ∀ l ∈ links, l.method ≠ "Select" ∧ l.method ≠ "Distinct" ∧ l.method ≠ "Count") :
    (analyzeGormChain lower (chainOf root links) NewSQLBuilder).2.Columns = "*" ∧
    ((analyzeGormChain lower (chainOf root links) NewSQLBuilder).2.Operation = .SELECT →
      (BuildSQL (analyzeGormChain lower (chainOf root links) NewSQLBuilder).2).1
        = Join ("SELECT *" ::
            buildClauses (analyzeGormChain lower (chainOf root links) NewSQLBuilder).2) " " ∧
      "SELECT *".data <+:
        (BuildSQL (analyzeGormChain lower (chainOf root links) NewSQLBuilder).2).1.data) := by
  have hstar : (analyzeGormChain lower (chainOf root links) NewSQLBuilder).2.Columns = "*" :=
    chainOf_columns lower root links hroot h NewSQLBuilder
  refine ⟨hstar, fun hop => ?_⟩
  have hb : (BuildSQL (analyzeGormChain lower (chainOf root links) NewSQLBuilder).2).1
      = Join ("SELECT *" ::
          buildClauses (analyzeGormChain lower (chainOf root links) NewSQLBuilder).2) " " := by
    have hno : Contains "*" "DISTINCT" = false := by decide
    simp only [BuildSQL, buildHead, hop, hstar, hno]
    rfl
  exact ⟨hb, hb ▸ Join_cons_starts _ _ _⟩

/-- C9 on `db.Model(&User{}).Session(cfg)`. -/
theorem default_projection_witness :
    (Expr.Ident "db").isQualifiedCall = false ∧
    (analyzeGormChain id (chainOf (.Ident "db") (sessionLink :: sessionInner))
      NewSQLBuilder).2.Columns = "*" ∧
    "SELECT *".data <+: (BuildSQL (analyzeGormChain id
      (chainOf (.Ident "db") (sessionLink :: sessionInner)) NewSQLBuilder).2).1.data :=
  ⟨rfl,
   (default_projection id (.Ident "db") (sessionLink :: sessionInner) rfl (by decide)).1,
   ((default_projection id (.Ident "db") (sessionLink :: sessionInner) rfl (by decide)).2
      rfl).2⟩

/-- C10: `BuildSQL` on the builder returned by `NewSQLBuilder` returns exactly
`SELECT *`, with no clause after the operation clause. -/
theorem BuildSQL_fresh :
    (BuildSQL NewSQLBuilder).1 = "SELECT *" ∧ buildClauses NewSQLBuilder = [] := by
  decide

/-! ## Lemmas on `DISTINCT`, on `Updates` maps and on quoting -/

/-- A projection that `Distinct` with an argument writes contains the word
`DISTINCT`. -/
theorem Contains_select_distinct (a : String) :
    Contains ("SELECT DISTINCT " ++ a) "DISTINCT" = true := by
  have h : ("SELECT DISTINCT " ++ a).data
      = 'S' :: 'E' :: 'L' :: 'E' :: 'C' :: 'T' :: ' ' ::
        ('D' :: 'I' :: 'S' :: 'T' :: 'I' :: 'N' :: 'C' :: 'T' :: ' ' :: a.data) := by
    rw [String.data_append]; rfl
  have hd : "DISTINCT".data = ['D', 'I', 'S', 'T', 'I', 'N', 'C', 'T'] := rfl
  simp [Contains, h, hd, List.isPrefixOf]

/-- The rendering of a `SELECT` builder whose projection contains `DISTINCT`
starts with the projection, without a `SELECT` keyword of its own. -/
theorem BuildSQL_select_with_distinct (b : SQLBuilder) (hop : b.Operation = .SELECT)
    (hc : Contains b.Columns "DISTINCT" = true) :
    (BuildSQL b).1 = Join (b.Columns :: buildClauses b) " " := by
  simp only [BuildSQL, buildHead, hop, hc]
  rfl

/-- The rendering of a `SELECT` builder whose projection does not contain
`DISTINCT` starts with `SELECT` and the projection. -/
theorem BuildSQL_select_without_distinct (b : SQLBuilder) (hop : b.Operation = .SELECT)
    (hc : Contains b.Columns "DISTINCT" = false) :
    (BuildSQL b).1 = Join (("SELECT " ++ b.Columns) :: buildClauses b) " " := by
  simp only [BuildSQL, buildHead, hop, hc]
  rfl

/-- The chains that reach the three `DISTINCT` example states. -/
theorem distinct_states (lower : Char → Char) :
    (analyzeGormChain lower (chainOf (.Ident "db")
      [⟨"Distinct", [strLit "name"]⟩, ⟨"Model", [userPtrLit]⟩]) NewSQLBuilder).2
      = distinctNameUsers ∧
    (analyzeGormChain lower (chainOf (.Ident "db")
      [⟨"Distinct", [strLit "email"]⟩, ⟨"Where", [strLit "age > 18"]⟩,
       ⟨"Model", [userPtrLit]⟩]) NewSQLBuilder).2 = distinctEmailAdults ∧
    (analyzeGormChain lower (chainOf (.Ident "db")
      [⟨"Distinct", []⟩, ⟨"Model", [userPtrLit]⟩]) NewSQLBuilder).2 = distinctStarUsers :=
  ⟨rfl, rfl, rfl⟩

/-- The chain `db.Model(&User{}).Distinct()` renders without the `SELECT`
keyword, and so does `Select("DISTINCT name")`. -/
theorem distinct_without_argument_renders :
    (BuildSQL distinctStarUsers).1 = "DISTINCT * FROM users" ∧
    (BuildSQL (applyMethod id "Select" [strLit "DISTINCT name"] NewSQLBuilder)).1
      = "DISTINCT name" := by
  decide

/-- The loop of `extractUpdatesContent` yields at most one fragment for every
two elements of the literal. -/
theorem updatesPairs_length_le (elts : List Expr) :
    2 * (updatesPairs elts).length ≤ elts.length := by
  induction elts using updatesPairs.induct with
  | case1 e x rest ih =>
    have h1 : (updatesPair e).length ≤ 1 := by
      unfold updatesPair
      split <;> simp
    simp only [updatesPairs, List.length_append, List.length_cons]
    omega
  | case2 l h =>
    unfold updatesPairs
    split
    · exact absurd rfl (h _ _ _)
    · simp

/-- The cases in which `extractUpdatesContent` returns the placeholder: no
argument, more than one argument, an argument that is not a literal of a map
type. -/
theorem extractUpdatesContent_placeholder (a b : Expr) (rest : List Expr) (value : String)
    (kind : Token) (elts : List Expr) (name : String) :
    extractUpdatesContent [] = "..." ∧
    extractUpdatesContent (a :: b :: rest) = "..." ∧
    extractUpdatesContent [.BasicLit kind value] = "..." ∧
    extractUpdatesContent [.Ident name] = "..." ∧
    extractUpdatesContent [.CompositeLit (some (.Ident name)) elts] = "..." := by
  refine ⟨rfl, ?_, rfl, rfl, rfl⟩
  simp [extractUpdatesContent]

/-- A double-quoted literal whose text carries no quote character at either
end is extracted as that text. -/
theorem extractStringArg_strLit (s : String)
    (hhead : ∀ c, s.data.head? = some c → quoteCutset.data.contains c = false)
    (hlast : ∀ c, s.data.getLast? = some c → quoteCutset.data.contains c = false) :
    extractStringArg (strLit s) = s := by
  have hq : quoteCutset.data.contains '"' = true := by decide
  have hdata : ("\"" ++ s ++ "\"").data = '"' :: (s.data ++ ['"']) := by
    simp [String.data_append]
  simp only [extractStringArg, strLit, Trim]
  apply String.ext
  simp only [hdata]
  cases hs : s.data with
  | nil =>
    rw [List.nil_append, List.dropWhile_cons_of_pos hq, List.dropWhile_cons_of_pos hq]
    rfl
  | cons c cs =>
    have hc : quoteCutset.data.contains c = false := hhead c (by simp [hs])
    have hne : c :: cs ≠ [] := by simp
    have hl : c :: cs = (c :: cs).dropLast ++ [(c :: cs).getLast hne] :=
      (List.dropLast_append_getLast hne).symm
    have hlc : quoteCutset.data.contains ((c :: cs).getLast hne) = false :=
      hlast _ (by rw [hs]; exact List.getLast?_eq_getLast _ hne)
    rw [List.dropWhile_cons_of_pos hq, List.cons_append,
      List.dropWhile_cons_of_neg (by simp only [hc, Bool.false_eq_true, not_false_eq_true]), ← List.cons_append, List.reverse_append,
      List.reverse_singleton, List.singleton_append, List.dropWhile_cons_of_pos hq]
    generalize (c :: cs).getLast hne = l at hl hlc
    generalize (c :: cs).dropLast = init at hl
    rw [hl, List.reverse_append, List.reverse_singleton, List.singleton_append,
      List.dropWhile_cons_of_neg (by simp only [hlc, Bool.false_eq_true, not_false_eq_true]), List.reverse_cons, List.reverse_reverse]

/-! ## The claims on rendering and on the extractors -/

/-- C11 (counterexample): the builder reached by `db.Model(&User{}).Distinct("name")`
is a `SELECT` builder with projection `SELECT DISTINCT name`; its rendering
`SELECT DISTINCT name FROM users` does not begin with `SELECT ` followed by
that projection. -/
theorem BuildSQL_distinct_head_counterexample :
    distinctNameUsers.Operation = .SELECT ∧
    distinctNameUsers.Columns = "SELECT DISTINCT name" ∧
    (BuildSQL distinctNameUsers).1 = "SELECT DISTINCT name FROM users" ∧
    ¬ ("SELECT " ++ distinctNameUsers.Columns).data <+: (BuildSQL distinctNameUsers).1.data := by
  decide

/-- C11 (amended): for a `SELECT` builder whose projection does not contain
`DISTINCT`, the output of `BuildSQL` begins with `SELECT ` followed by the
projection; for a projection `SELECT DISTINCT a`, the string `Distinct` with an
argument writes, the output begins with the projection itself. -/
theorem BuildSQL_select_head (b : SQLBuilder) (hop : b.Operation = .SELECT) :
    (Contains b.Columns "DISTINCT" = false →
      ("SELECT " ++ b.Columns).data <+: (BuildSQL b).1.data) ∧
    (∀ a : String, b.Columns = "SELECT DISTINCT " ++ a →
      ("SELECT DISTINCT " ++ a).data <+: (BuildSQL b).1.data) := by
  constructor
  · intro hc
    rw [BuildSQL_select_without_distinct b hop hc]
    exact Join_cons_starts _ _ _
  · intro a ha
    rw [BuildSQL_select_with_distinct b hop (ha ▸ Contains_select_distinct a), ha]
    exact Join_cons_starts _ _ _

/-- C11 (amended) at the builder of `db.Table("orders").Count(total)` and at
the builder of `db.Model(&User{}).Distinct("name")`. -/
theorem BuildSQL_select_head_witness :
    ("SELECT " ++ "COUNT(*) AS total").data <+:
      (BuildSQL { NewSQLBuilder with Table := "orders", Columns := "COUNT(*) AS total" }).1.data ∧
    ("SELECT DISTINCT " ++ "name").data <+: (BuildSQL distinctNameUsers).1.data :=
  ⟨(BuildSQL_select_head { NewSQLBuilder with Table := "orders", Columns := "COUNT(*) AS total" }
      rfl).1 (by decide),
   (BuildSQL_select_head distinctNameUsers rfl).2 "name" (by decide)⟩

/-- C12 (counterexample): on the builder reached by
`db.Model(&User{}).Where("age > 18").Distinct("email")` the rendering is
`SELECT DISTINCT email FROM users WHERE age > 18`, while the join of the
specification's clauses starts with the operation clause `SELECT ` followed by
the projection `SELECT DISTINCT email`. -/
theorem BuildSQL_ne_renderSpec_counterexample :
    (BuildSQL distinctEmailAdults).1 = "SELECT DISTINCT email FROM users WHERE age > 18" ∧
    renderSpec distinctEmailAdults
      = "SELECT SELECT DISTINCT email FROM users WHERE age > 18" ∧
    (BuildSQL distinctEmailAdults).1 ≠ renderSpec distinctEmailAdults := by
  decide

/-- Away from a `SELECT` projection that contains `DISTINCT`, `BuildSQL`
renders the specification's clauses. -/
theorem BuildSQL_eq_renderSpec_of (b : SQLBuilder)
    (h : b.Operation ≠ .SELECT ∨ Contains b.Columns "DISTINCT" = false) :
    (BuildSQL b).1 = renderSpec b := by
  have hlen : ∀ l : List String, l.length > 0 ↔ l ≠ [] := fun l => List.length_pos
  cases hop : b.Operation with
  | SELECT =>
    have hc : Contains b.Columns "DISTINCT" = false := by
      rcases h with h | h
      · exact absurd hop h
      · exact h
    simp [BuildSQL, buildHead, buildClauses, renderSpec, clausesSpec, operationClauseSpec,
      hop, hc, hlen]
  | UPDATE =>
    simp [BuildSQL, buildHead, buildClauses, renderSpec, clausesSpec, operationClauseSpec,
      hop, hlen]
  | DELETE =>
    simp [BuildSQL, buildHead, buildClauses, renderSpec, clausesSpec, operationClauseSpec,
      hop, hlen]
  | INSERT =>
    simp [BuildSQL, buildHead, buildClauses, renderSpec, clausesSpec, operationClauseSpec,
      hop, hlen]

/-- C12 (amended): for every builder state whose operation is not `SELECT`, or
whose projection does not contain `DISTINCT`, the output of `BuildSQL` is the
single-space join of the operation clause, `FROM <table>` only for `SELECT` and
`DELETE` with a table set, the joins, `WHERE`, `GROUP BY`, `HAVING`,
`ORDER BY`, `LIMIT` and `OFFSET`, each omitted when its list or value is
empty; for a `SELECT` builder with a projection `SELECT DISTINCT a` the output
is the same join with the projection itself in the place of the operation
clause. -/
theorem BuildSQL_eq_renderSpec (b : SQLBuilder) :
    ((b.Operation ≠ .SELECT ∨ Contains b.Columns "DISTINCT" = false) →
      (BuildSQL b).1 = renderSpec b) ∧
    (∀ a : String, b.Operation = .SELECT → b.Columns = "SELECT DISTINCT " ++ a →
      (BuildSQL b).1 = Join (("SELECT DISTINCT " ++ a) :: (clausesSpec b).tail) " ") := by
  refine ⟨BuildSQL_eq_renderSpec_of b, fun a hop ha => ?_⟩
  have hlen : ∀ l : List String, l.length > 0 ↔ l ≠ [] := fun l => List.length_pos
  rw [BuildSQL_select_with_distinct b hop (ha ▸ Contains_select_distinct a), ha]
  simp [buildClauses, clausesSpec, hop, hlen]

/-- C12 (amended) at the `UPDATE` builder of `db.Model(&User{}).Update("name", "bob")`
and at the builder of `db.Model(&User{}).Distinct("name")`. -/
theorem BuildSQL_eq_renderSpec_witness :
    (updateUsers.Operation ≠ .SELECT ∨ Contains updateUsers.Columns "DISTINCT" = false) ∧
    (BuildSQL updateUsers).1 = renderSpec updateUsers ∧
    (BuildSQL distinctNameUsers).1
      = Join (("SELECT DISTINCT " ++ "name") :: (clausesSpec distinctNameUsers).tail) " " :=
  ⟨by decide, (BuildSQL_eq_renderSpec updateUsers).1 (by decide),
   (BuildSQL_eq_renderSpec distinctNameUsers).2 "name" rfl (by decide)⟩

/-- C13 (evaluation at the failing input): for the single argument
`map[string]interface{}{"name": "bob", "age": 18}`, with two entries and
literal keys, `extractUpdatesContent` returns `name = bob` only; for
`map[string]interface{}{"name": "bob"}`, with one entry, it returns the
placeholder `...`. -/
theorem extractUpdatesContent_skips_entries :
    extractUpdatesContent [nameAgeMap] = "name = bob" ∧
    extractUpdatesContent [nameAgeMap] ≠ "name = bob, age = 18" ∧
    extractUpdatesContent [nameMap] = "..." := by
  decide

/-- C14 (evaluation at the failing input): for the double-quoted literal with
the text `name = 'bob'`, `extractStringArg` returns `name = 'bob`, without the
closing single quote of the text. -/
theorem extractStringArg_strips_inner_quote :
    extractStringArg (strLit "name = 'bob'") = "name = 'bob" ∧
    extractStringArg (strLit "name = 'bob'") ≠ "name = 'bob'" := by
  decide

/-- C17 (counterexample): `Distinct("name")` on the fresh builder sets the
projection to `SELECT DISTINCT name`, not to `DISTINCT name`. -/
theorem applyMethod_Distinct_counterexample :
    extractStringArg (strLit "name") = "name" ∧
    (applyMethod id "Distinct" [strLit "name"] NewSQLBuilder).Columns = "SELECT DISTINCT name" ∧
    (applyMethod id "Distinct" [strLit "name"] NewSQLBuilder).Columns ≠ "DISTINCT name" := by
  decide

/-- C17 (amended): on a builder with projection `p`, the `Distinct` case with a
first argument that resolves to a non-empty token `a` sets the projection to
`SELECT DISTINCT a`, and with no argument sets it to `DISTINCT ` followed by
`p`; no other field changes. -/
theorem applyMethod_Distinct (lower : Char → Char) (b : SQLBuilder) (arg : Expr)
    (rest : List Expr) (h : extractStringArg arg ≠ "") :
    applyMethod lower "Distinct" (arg :: rest) b
      = { b with Columns := "SELECT DISTINCT " ++ extractStringArg arg } ∧
    applyMethod lower "Distinct" [] b = { b with Columns := "DISTINCT " ++ b.Columns } := by
  constructor
  · simp only [applyMethod]
    rw [if_pos h]
  · rfl

/-- C17 (amended) at `Distinct(email)` with the identifier `email`, on the
builder of `db.Table("orders").Count(total)`. -/
theorem applyMethod_Distinct_witness :
    extractStringArg (.Ident "email") ≠ "" ∧
    applyMethod id "Distinct" [.Ident "email"]
        { NewSQLBuilder with Table := "orders", Columns := "COUNT(*) AS total" }
      = { NewSQLBuilder with Table := "orders", Columns := "SELECT DISTINCT email" } ∧
    applyMethod id "Distinct" []
        { NewSQLBuilder with Table := "orders", Columns := "COUNT(*) AS total" }
      = { NewSQLBuilder with Table := "orders", Columns := "DISTINCT COUNT(*) AS total" } :=
  ⟨by decide, applyMethod_Distinct id _ (.Ident "email") [] (by decide)⟩


/-! ## Invariants of the resolver and the walker's non-empty check -/

/-- No case of the switch sets the operation back to `SELECT`. -/
theorem applyMethod_operation (lower : Char → Char) (m : String) (args : List Expr)
    (b : SQLBuilder) (h : b.Operation ≠ .SELECT) :
    (applyMethod lower m args b).Operation ≠ .SELECT := by
  unfold applyMethod
  split
  all_goals first
    | exact h
    | (intro hc; cases hc)
    | (split <;> (try dsimp only) <;> (try split) <;> (try dsimp only) <;>
        first | exact h | (intro hc; cases hc))

/-- A property of builders that every case of the switch preserves is
preserved by `analyzeGormChain` on every expression. -/
theorem analyzeGormChain_preserves (lower : Char → Char) (P : SQLBuilder → Prop)
    (hstep : ∀ m args b, P b → P (applyMethod lower m args b)) (e : Expr) (b : SQLBuilder)
    (hb : P b) : P (analyzeGormChain lower e b).2 := by
  induction e, b using analyzeGormChain.induct lower with
  | case1 m args b b1 fn a ih =>
    rw [analyzeGormChain_call_selector]
    exact ih (hstep m args b hb)
  | case2 x m args b hx =>
    rw [analyzeGormChain_call_selector, analyzeGormChain_not_qualified lower x _
      (by cases x <;> first | rfl | exact absurd rfl (hx _ _))]
    exact hstep m args b hb
  | case3 t b ht =>
    rw [analyzeGormChain_not_qualified lower t b
      (by
        cases t with
        | CallExpr fn args =>
          cases fn with
          | SelectorExpr x sel => exact absurd rfl (ht x sel args)
          | _ => rfl
        | _ => rfl)]
    exact hb

/-- The switch at the head of `BuildSQL` never writes the operation. -/
theorem BuildSQL_operation (b : SQLBuilder) : (BuildSQL b).2.Operation = b.Operation := by
  cases hop : b.Operation <;> simp only [BuildSQL, buildHead, hop]
  split <;> exact hop

/-- A join whose first element is not empty is not empty. -/
theorem Join_cons_ne_empty (a : String) (rest : List String) (sep : String) (h : a ≠ "") :
    Join (a :: rest) sep ≠ "" := by
  intro hj
  obtain ⟨t, ht⟩ := Join_cons_starts a rest sep
  rw [hj] at ht
  have ha : a.data = [] := (List.append_eq_nil.mp ht).1
  exact h (String.ext ha)

/-- Every builder state renders to a non-empty string. -/
theorem BuildSQL_nonempty (b : SQLBuilder) : (BuildSQL b).1 ≠ "" := by
  have hcat : ∀ (p s : String), p ≠ "" → p ++ s ≠ "" := by
    intro p s hp hps
    have hd : p.data ++ s.data = [] := by rw [← String.data_append, hps]
    exact hp (String.ext (List.append_eq_nil.mp hd).1)
  cases hop : b.Operation with
  | SELECT =>
    by_cases hc : Contains b.Columns "DISTINCT" = true
    · rw [BuildSQL_select_with_distinct b hop hc]
      refine Join_cons_ne_empty _ _ _ ?_
      intro he
      rw [he] at hc
      exact absurd hc (by decide)
    · rw [BuildSQL_select_without_distinct b hop (by simpa using hc)]
      exact Join_cons_ne_empty _ _ _ (hcat _ _ (by decide))
  | UPDATE =>
    simp only [BuildSQL, buildHead, hop, List.singleton_append]
    exact Join_cons_ne_empty _ _ _ (by
      rw [String.append_assoc, String.append_assoc]
      exact hcat _ _ (by decide))
  | DELETE =>
    simp only [BuildSQL, buildHead, hop, List.singleton_append]
    exact Join_cons_ne_empty _ _ _ (by decide)
  | INSERT =>
    simp only [BuildSQL, buildHead, hop, List.singleton_append]
    exact Join_cons_ne_empty _ _ _ (hcat _ _ (by decide))

/-- After `results[line] = entry` the line has that entry. -/
theorem Results.get_set_self (results : Results) (line : Int) (entry : String) :
    (results.set line entry).get line = some entry := by
  induction results with
  | nil => simp [Results.set, Results.get]
  | cons p rest ih =>
    obtain ⟨k, v⟩ := p
    by_cases hk : k = line
    · simp [Results.set, Results.get, hk]
    · simp [Results.set, Results.get, hk, ih]

/-- An assignment never removes the entry of a line. -/
theorem Results.get_set_ne_none (results : Results) (line other : Int) (entry : String)
    (h : results.get other ≠ none) : (results.set line entry).get other ≠ none := by
  induction results with
  | nil => simp [Results.get] at h
  | cons p rest ih =>
    obtain ⟨k, v⟩ := p
    by_cases ho : k = other
    · subst ho
      by_cases hk : k = line
      · simp [Results.set, Results.get, hk]
      · simp [Results.set, Results.get, hk]
    · by_cases hk : k = line
      · subst hk
        simpa [Results.set, Results.get, ho] using h
      · simp only [Results.set, Results.get, hk, ho, if_false] at h ⊢
        exact ih h

/-- After a rendering is recorded for a line, the line has an entry. -/
theorem record_get_self (filePath : String) (line : Int) (results : Results) (sql : String) :
    (record filePath line results sql).get line ≠ none := by
  unfold record
  split
  · rename_i v hv
    split
    · rw [Results.get_set_self]; simp
    · rw [hv]; simp
  · rw [Results.get_set_self]; simp

/-- Recording never removes the entry of a line. -/
theorem record_get_ne_none (filePath : String) (line other : Int) (results : Results)
    (sql : String) (h : results.get other ≠ none) :
    (record filePath line results sql).get other ≠ none := by
  unfold record
  split
  · split
    · exact Results.get_set_ne_none _ _ _ _ h
    · exact h
  · exact Results.get_set_ne_none _ _ _ _ h

/-- The callback never removes the entry of a line. -/
theorem visit_get_ne_none (lower : Char → Char) (filePath : String) (results : Results)
    (n : Expr × Int) (other : Int) (h : results.get other ≠ none) :
    (visit lower filePath results n).get other ≠ none := by
  unfold visit
  split
  · dsimp only
    split
    · split
      · exact record_get_ne_none _ _ _ _ _ h
      · exact h
    · exact h
  · exact h

/-- On a qualified call the callback records the rendering, whatever it is. -/
theorem visit_records (lower : Char → Char) (filePath : String) (results : Results)
    (e : Expr) (line : Int) (h : e.isQualifiedCall = true) :
    visit lower filePath results (e, line)
      = record filePath line results (BuildSQL (analyzeGormChain lower e NewSQLBuilder).2).1 := by
  rw [visit_qualified lower filePath results e line h, if_pos (BuildSQL_nonempty _)]

/-- Entries survive the rest of a walk. -/
theorem foldl_visit_get_ne_none (lower : Char → Char) (filePath : String)
    (nodes : List (Expr × Int)) (results : Results) (other : Int)
    (h : results.get other ≠ none) :
    (nodes.foldl (visit lower filePath) results).get other ≠ none := by
  induction nodes generalizing results with
  | nil => exact h
  | cons n ns ih => exact ih _ (visit_get_ne_none lower filePath results n other h)

/-- C15: on every expression, a builder whose operation is `UPDATE`, `DELETE`
or `INSERT` leaves `analyzeGormChain` with an operation that is still not
`SELECT`; and `BuildSQL` leaves the operation as it found it. -/
theorem operation_never_back_to_select (lower : Char → Char) (e : Expr) (b : SQLBuilder) :
    (b.Operation ≠ .SELECT → (analyzeGormChain lower e b).2.Operation ≠ .SELECT) ∧
    (BuildSQL b).2.Operation = b.Operation :=
  ⟨fun h => analyzeGormChain_preserves lower (fun s => s.Operation ≠ .SELECT)
      (fun m args s hs => applyMethod_operation lower m args s hs) e b h,
   BuildSQL_operation b⟩

/-- C15 on the chain `db.Model(&User{}).Where("age > 18").Order("name").Limit(10)`
resolved into the `UPDATE` builder of `db.Model(&User{}).Update("name", "bob")`. -/
theorem operation_never_back_to_select_witness :
    updateUsers.Operation ≠ .SELECT ∧
    (analyzeGormChain id (selectChain (.Ident "db")) updateUsers).2.Operation ≠ .SELECT :=
  ⟨by decide, (operation_never_back_to_select id (selectChain (.Ident "db")) updateUsers).1
    (by decide)⟩

/-- C20: every builder state, reachable or not, renders to a non-empty string;
so on every qualified call the walker's callback records the rendering for the
call's line, and after the walk every line that holds a qualified call has an
entry. -/
theorem walk_records_every_qualified_call (lower : Char → Char) (filePath : String)
    (nodes : List (Expr × Int)) (e : Expr) (line : Int)
    (hq : e.isQualifiedCall = true) (hmem : (e, line) ∈ nodes) :
    (∀ b : SQLBuilder, (BuildSQL b).1 ≠ "") ∧
    (∀ results : Results, visit lower filePath results (e, line)
      = record filePath line results (BuildSQL (analyzeGormChain lower e NewSQLBuilder).2).1) ∧
    (walk lower filePath nodes).get line ≠ none := by
  refine ⟨BuildSQL_nonempty, fun results => visit_records lower filePath results e line hq, ?_⟩
  obtain ⟨pre, post, hsplit⟩ := List.append_of_mem hmem
  rw [walk, hsplit, List.foldl_append, List.foldl_cons]
  apply foldl_visit_get_ne_none
  rw [visit_records lower filePath _ e line hq]
  exact record_get_self _ _ _ _

/-- C20 on a file whose line 3 is `fmt.Println("starting")`, a call unrelated
to queries: the line gets the entry `main.go:3: SELECT *`. -/
theorem walk_records_every_qualified_call_witness :
    (Expr.CallExpr (.SelectorExpr (.Ident "fmt") "Println") [strLit "starting"]).isQualifiedCall
      = true ∧
    (walk id "main.go"
      [(.CallExpr (.SelectorExpr (.Ident "fmt") "Println") [strLit "starting"], 3)]).get 3
      ≠ none ∧
    walk id "main.go"
      [(.CallExpr (.SelectorExpr (.Ident "fmt") "Println") [strLit "starting"], 3)]
      = [(3, "main.go:3: SELECT *")] :=
  ⟨rfl,
   (walk_records_every_qualified_call id "main.go"
      [(.CallExpr (.SelectorExpr (.Ident "fmt") "Println") [strLit "starting"], 3)]
      (.CallExpr (.SelectorExpr (.Ident "fmt") "Println") [strLit "starting"]) 3 rfl
      (List.mem_singleton.mpr rfl)).2.2,
   by decide⟩


/-! ## The order in which the lists accumulate -/

/-- What one case of the switch does to the predicate list. -/
theorem applyMethod_Where (lower : Char → Char) (l : Link) (b : SQLBuilder) :
    (applyMethod lower l.method l.args b).Where = b.Where ++ (whereFragment l).toList := by
  obtain ⟨m, args⟩ := l
  simp only
  unfold applyMethod
  split
  all_goals (try split)
  all_goals (try dsimp only)
  all_goals (try split)
  all_goals simp_all [whereFragment, firstArgToken]

/-- What one case of the switch does to the group list. -/
theorem applyMethod_GroupBy (lower : Char → Char) (l : Link) (b : SQLBuilder) :
    (applyMethod lower l.method l.args b).GroupBy = b.GroupBy ++ (groupFragment l).toList := by
  obtain ⟨m, args⟩ := l
  simp only
  unfold applyMethod
  split
  all_goals (try split)
  all_goals (try dsimp only)
  all_goals (try split)
  all_goals simp_all [groupFragment, firstArgToken]

/-- What one case of the switch does to the having list. -/
theorem applyMethod_Having (lower : Char → Char) (l : Link) (b : SQLBuilder) :
    (applyMethod lower l.method l.args b).Having = b.Having ++ (havingFragment l).toList := by
  obtain ⟨m, args⟩ := l
  simp only
  unfold applyMethod
  split
  all_goals (try split)
  all_goals (try dsimp only)
  all_goals (try split)
  all_goals simp_all [havingFragment, firstArgToken]

/-- What one case of the switch does to the join list. -/
theorem applyMethod_Joins (lower : Char → Char) (l : Link) (b : SQLBuilder) :
    (applyMethod lower l.method l.args b).Joins = b.Joins ++ (joinFragment l).toList := by
  obtain ⟨m, args⟩ := l
  simp only
  unfold applyMethod
  split
  all_goals (try split)
  all_goals (try dsimp only)
  all_goals (try split)
  all_goals simp_all [joinFragment, firstArgToken]

/-- What one case of the switch other than `Last` does to the order list. -/
theorem applyMethod_OrderBy (lower : Char → Char) (l : Link) (b : SQLBuilder)
    (h : l.method ≠ "Last") :
    (applyMethod lower l.method l.args b).OrderBy = b.OrderBy ++ (orderFragment l).toList := by
  obtain ⟨m, args⟩ := l
  simp only at h ⊢
  unfold applyMethod
  split
  all_goals (try split)
  all_goals (try dsimp only)
  all_goals (try split)
  all_goals simp_all [orderFragment, firstArgToken]

/-- A list field to which every link appends its fragment holds, after the
chain is resolved, the fragments from the outermost link to the innermost. -/
theorem chainOf_accumulates (lower : Char → Char) (field : SQLBuilder → List String)
    (fragment : Link → Option String) (root : Expr) (hroot : root.isQualifiedCall = false)
    (links : List Link)
    (hstep : ∀ l ∈ links, ∀ b, field (applyMethod lower l.method l.args b)
      = field b ++ (fragment l).toList)
    (b : SQLBuilder) :
    field (analyzeGormChain lower (chainOf root links) b).2
      = field b ++ links.filterMap fragment := by
  induction links generalizing b with
  | nil => simp [chainOf, analyzeGormChain_not_qualified lower root b hroot]
  | cons l ls ih =>
    simp only [chainOf, analyzeGormChain_call_selector]
    rw [ih (fun l' hl' => hstep l' (List.mem_cons_of_mem _ hl')),
      hstep l (List.mem_cons_self _ _)]
    cases hf : fragment l <;> simp [List.filterMap_cons, hf]

/-- The lists in terms of the tokens the switch reads: on a root that is not a
qualified call, a chain whose links are `src` in source order, resolved into a
fresh builder, leaves the predicate list equal to the tokens of its `Where`
(and `And`, `Or`) links in the reverse of source order, and the `WHERE` clause
joins them in that order; the group, having and join lists are reversed in the
same way, and so is the order list when no link is `Last`. -/
theorem accumulation_tokens (lower : Char → Char) (root : Expr) (src : List Link)
    (hroot : root.isQualifiedCall = false) :
    (analyzeGormChain lower (chainOf root src.reverse) NewSQLBuilder).2.Where
      = (src.filterMap whereFragment).reverse ∧
    (src.filterMap whereFragment ≠ [] →
      "WHERE " ++ Join (src.filterMap whereFragment).reverse " AND " ∈
        buildClauses (analyzeGormChain lower (chainOf root src.reverse) NewSQLBuilder).2) ∧
    (analyzeGormChain lower (chainOf root src.reverse) NewSQLBuilder).2.GroupBy
      = (src.filterMap groupFragment).reverse ∧
    (analyzeGormChain lower (chainOf root src.reverse) NewSQLBuilder).2.Having
      = (src.filterMap havingFragment).reverse ∧
    (analyzeGormChain lower (chainOf root src.reverse) NewSQLBuilder).2.Joins
      = (src.filterMap joinFragment).reverse ∧
    ((∀ l ∈ src, l.method ≠ "Last") →
      (analyzeGormChain lower (chainOf root src.reverse) NewSQLBuilder).2.OrderBy
        = (src.filterMap orderFragment).reverse) := by
  have hw := chainOf_accumulates lower (fun s => s.Where) whereFragment root hroot src.reverse
    (fun l _ b => applyMethod_Where lower l b) NewSQLBuilder
  have hg := chainOf_accumulates lower (fun s => s.GroupBy) groupFragment root hroot src.reverse
    (fun l _ b => applyMethod_GroupBy lower l b) NewSQLBuilder
  have hh := chainOf_accumulates lower (fun s => s.Having) havingFragment root hroot src.reverse
    (fun l _ b => applyMethod_Having lower l b) NewSQLBuilder
  have hj := chainOf_accumulates lower (fun s => s.Joins) joinFragment root hroot src.reverse
    (fun l _ b => applyMethod_Joins lower l b) NewSQLBuilder
  simp only [List.filterMap_reverse] at hw hg hh hj
  have hnil : NewSQLBuilder.Where = [] ∧ NewSQLBuilder.GroupBy = [] ∧
      NewSQLBuilder.Having = [] ∧ NewSQLBuilder.Joins = [] ∧ NewSQLBuilder.OrderBy = [] :=
    ⟨rfl, rfl, rfl, rfl, rfl⟩
  rw [hnil.1, List.nil_append] at hw
  rw [hnil.2.1, List.nil_append] at hg
  rw [hnil.2.2.1, List.nil_append] at hh
  rw [hnil.2.2.2.1, List.nil_append] at hj
  refine ⟨hw, ?_, hg, hh, hj, ?_⟩
  · intro hne
    have hlen : (analyzeGormChain lower (chainOf root src.reverse) NewSQLBuilder).2.Where.length
        > 0 := by
      rw [hw, List.length_reverse]
      exact List.length_pos.mpr hne
    simp only [buildClauses, hlen, if_true, ← hw]
    simp
  · intro hlast
    have ho := chainOf_accumulates lower (fun s => s.OrderBy) orderFragment root hroot
      src.reverse
      (fun l hl b => applyMethod_OrderBy lower l b (hlast l (List.mem_reverse.mp hl)))
      NewSQLBuilder
    simp only [List.filterMap_reverse] at ho
    rw [hnil.2.2.2.2, List.nil_append] at ho
    exact ho

/-- The token lists of `db.Where("a = 1").Group("kind").Where("b = 2").Group("area")`:
the predicate list is `b = 2`, `a = 1`, the group list is `area`, `kind`. -/
theorem accumulation_tokens_example :
    (Expr.Ident "db").isQualifiedCall = false ∧
    (analyzeGormChain id (chainOf (.Ident "db") twoWheresSource.reverse) NewSQLBuilder).2.Where
      = ["b = 2", "a = 1"] ∧
    (analyzeGormChain id (chainOf (.Ident "db") twoWheresSource.reverse) NewSQLBuilder).2.GroupBy
      = ["area", "kind"] :=
  ⟨rfl,
   (accumulation_tokens id (.Ident "db") twoWheresSource rfl).1,
   (accumulation_tokens id (.Ident "db") twoWheresSource rfl).2.2.1⟩

/-- The chain `db.Where("a = 1").Group("kind").Where("b = 2").Group("area")`
renders its clauses in the reversed order. -/
theorem twoWheres_renders (lower : Char → Char) :
    (BuildSQL (analyzeGormChain lower (chainOf (.Ident "db") twoWheresSource.reverse)
      NewSQLBuilder).2).1 = "SELECT * WHERE b = 2 AND a = 1 GROUP BY area, kind" := by
  have hs : (analyzeGormChain lower (chainOf (.Ident "db") twoWheresSource.reverse)
      NewSQLBuilder).2
      = { NewSQLBuilder with Where := ["b = 2", "a = 1"], GroupBy := ["area", "kind"] } := rfl
  rw [hs]
  decide


/-! ## Sorting -/

/-- The sorted slice holds the elements of the slice it was given. -/
theorem sortSlice_perm {α : Type} (less : α → α → Bool) (x : List α) :
    (sortSlice less x).Perm x :=
  List.perm_insertionSort _ x

/-- In the sorted slice no element is `less` than an earlier one. -/
theorem sortSlice_sorted {α : Type} (less : α → α → Bool) (h : StrictTotal less) (x : List α) :
    List.Sorted (fun a b => less b a = false) (sortSlice less x) := by
  haveI : IsTotal α (fun a b => less b a = false) :=
    ⟨fun a b => by
      cases hab : less b a
      · exact Or.inl rfl
      · exact Or.inr (h.asymm b a hab)⟩
  haveI : IsTrans α (fun a b => less b a = false) :=
    ⟨fun a b c hab hbc => h.negTrans a b c hab hbc⟩
  exact List.sorted_insertionSort _ x

/-- A slice without repetition is sorted into strictly `less` order. -/
theorem sortSlice_strict {α : Type} (less : α → α → Bool) (h : StrictTotal less) (x : List α)
    (hx : x.Nodup) : List.Sorted (fun a b => less a b = true) (sortSlice less x) := by
  have hs := sortSlice_sorted less h x
  have hn : (sortSlice less x).Nodup := (sortSlice_perm less x).nodup_iff.mpr hx
  exact (List.Pairwise.and hs hn).imp (fun hab => h.connected _ _ hab.1 hab.2)

/-- The comparison `a < b` on `int` is a strict total order. -/
theorem intLess_strictTotal : StrictTotal (fun a b : Int => decide (a < b)) :=
  ⟨fun a b h => by simp only [decide_eq_true_eq, decide_eq_false_iff_not] at h ⊢; omega,
   fun a b c h1 h2 => by simp only [decide_eq_false_iff_not] at h1 h2 ⊢; omega,
   fun a b h hne => by simp only [decide_eq_true_eq, decide_eq_false_iff_not] at h ⊢; omega⟩

/-- The comparison `a > b` on `int` is a strict total order. -/
theorem intGreater_strictTotal : StrictTotal (fun a b : Int => decide (a > b)) :=
  ⟨fun a b h => by simp only [decide_eq_true_eq, decide_eq_false_iff_not] at h ⊢; omega,
   fun a b c h1 h2 => by simp only [decide_eq_false_iff_not] at h1 h2 ⊢; omega,
   fun a b h hne => by simp only [decide_eq_true_eq, decide_eq_false_iff_not] at h ⊢; omega⟩

/-- The comparison of rune sequences is the lexicographic order. -/
theorem lexLess_iff (a b : List Char) : lexLess a b = true ↔ List.Lex (· < ·) a b := by
  induction a generalizing b with
  | nil =>
    cases b with
    | nil => simp [lexLess]
    | cons y ys => simp [lexLess, List.Lex.nil]
  | cons x xs ih =>
    cases b with
    | nil => simp [lexLess]
    | cons y ys =>
      simp only [lexLess]
      rcases lt_trichotomy x y with hxy | hxy | hxy
      · simp [hxy, List.Lex.rel hxy]
      · subst hxy
        simp [ih, List.Lex.cons_iff]
      · have hnot : ¬ x < y := not_lt_of_gt hxy
        simp only [hnot, hxy, if_false, if_true]
        constructor
        · intro hf; cases hf
        · intro hl
          cases hl with
          | cons hrest => exact absurd hxy (lt_irrefl _)
          | rel hr => exact absurd hr hnot

/-- The comparison `a < b` on `string` is a strict total order. -/
theorem stringLess_strictTotal : StrictTotal stringLess := by
  have key : ∀ a b : String, stringLess a b = true ↔ List.Lex (· < ·) a.data b.data :=
    fun a b => lexLess_iff a.data b.data
  have hf : ∀ a b : String, stringLess a b = false ↔ ¬ List.Lex (· < ·) a.data b.data := by
    intro a b
    rw [← key a b]
    simp
  refine ⟨?_, ?_, ?_⟩
  · intro a b hab
    rw [hf]
    exact asymm ((key a b).mp hab)
  · intro a b c h1 h2
    rw [hf] at h1 h2 ⊢
    intro hca
    rcases trichotomous_of (List.Lex (· < · : Char → Char → Prop)) a.data b.data
      with hlt | heq | hgt
    · exact h2 (IsTrans.trans _ _ _ hca hlt)
    · exact h2 (heq ▸ hca)
    · exact h1 hgt
  · intro a b h hne
    rw [hf] at h
    rw [key]
    rcases trichotomous_of (List.Lex (· < · : Char → Char → Prop)) a.data b.data
      with hlt | heq | hgt
    · exact hlt
    · exact absurd (String.ext heq) hne
    · exact absurd hgt h

/-- C18: for every slice `nums`, `SortInts(nums, true)` returns a permutation
of `nums` in non-decreasing order and `SortInts(nums, false)` a permutation in
non-increasing order, both as long as `nums`, and `nums` itself is as it was. -/
theorem SortInts_sorted_perm (nums : List Int) :
    (SortInts nums true).1.Perm nums ∧
    List.Sorted (· ≤ ·) (SortInts nums true).1 ∧
    (SortInts nums false).1.Perm nums ∧
    List.Sorted (· ≥ ·) (SortInts nums false).1 ∧
    (SortInts nums true).1.length = nums.length ∧
    (SortInts nums false).1.length = nums.length ∧
    (SortInts nums true).2 = nums ∧
    (SortInts nums false).2 = nums := by
  have hup : (SortInts nums true).1 = sortSlice (fun a b => decide (a < b)) nums := rfl
  have hdown : (SortInts nums false).1 = sortSlice (fun a b => decide (a > b)) nums := rfl
  have pup := sortSlice_perm (fun a b : Int => decide (a < b)) nums
  have pdown := sortSlice_perm (fun a b : Int => decide (a > b)) nums
  refine ⟨hup ▸ pup, ?_, hdown ▸ pdown, ?_, ?_, ?_, rfl, rfl⟩
  · rw [hup]
    exact (sortSlice_sorted _ intLess_strictTotal nums).imp
      (fun h => by simp only [decide_eq_false_iff_not] at h; omega)
  · rw [hdown]
    exact (sortSlice_sorted _ intGreater_strictTotal nums).imp
      (fun h => by simp only [decide_eq_false_iff_not] at h; omega)
  · rw [hup]; exact pup.length_eq
  · rw [hdown]; exact pdown.length_eq

/-- The sorted keys of a map with at least one key are the sorted key slice. -/
theorem NewSortedMap_SortedKeys {K V : Type} (kind : KeyKind K) (m : List (K × V)) :
    (NewSortedMap kind m).SortedKeys = sortKeys kind (m.map Prod.fst) := by
  unfold NewSortedMap
  dsimp only
  split
  · rename_i h
    have hnil : m.map Prod.fst = [] := List.length_eq_zero.mp h
    cases kind <;> simp [sortKeys, sortSlice, hnil]
  · rfl

/-- C19: for every map with `string` keys and every map with `int` keys,
`NewSortedMap(m).SortedKeys` holds every key of `m` exactly once, in strictly
ascending order, and `NewSortedMap(m).Original` is `m`, so it maps every key to
the value `m` maps it to. -/
theorem NewSortedMap_sorted_keys {V W : Type} (ms : List (String × V)) (mi : List (Int × W))
    (hs : (ms.map Prod.fst).Nodup) (hi : (mi.map Prod.fst).Nodup) :
    (NewSortedMap .string ms).SortedKeys.Perm (ms.map Prod.fst) ∧
    (NewSortedMap .string ms).SortedKeys.Nodup ∧
    List.Sorted (fun a b => stringLess a b = true) (NewSortedMap .string ms).SortedKeys ∧
    (∀ key, mapGet (NewSortedMap .string ms).Original key = mapGet ms key) ∧
    (NewSortedMap .int mi).SortedKeys.Perm (mi.map Prod.fst) ∧
    (NewSortedMap .int mi).SortedKeys.Nodup ∧
    List.Sorted (· < ·) (NewSortedMap .int mi).SortedKeys ∧
    (∀ key, mapGet (NewSortedMap .int mi).Original key = mapGet mi key) := by
  have os : (NewSortedMap .string ms).Original = ms := by
    unfold NewSortedMap; dsimp only; split <;> rfl
  have oi : (NewSortedMap .int mi).Original = mi := by
    unfold NewSortedMap; dsimp only; split <;> rfl
  have ps : (NewSortedMap .string ms).SortedKeys.Perm (ms.map Prod.fst) := by
    rw [NewSortedMap_SortedKeys]; exact sortSlice_perm _ _
  have pi : (NewSortedMap .int mi).SortedKeys.Perm (mi.map Prod.fst) := by
    rw [NewSortedMap_SortedKeys]; exact sortSlice_perm _ _
  refine ⟨ps, ps.nodup_iff.mpr hs, ?_, fun key => by rw [os], pi, pi.nodup_iff.mpr hi, ?_,
    fun key => by rw [oi]⟩
  · rw [NewSortedMap_SortedKeys]
    exact sortSlice_strict _ stringLess_strictTotal _ hs
  · rw [NewSortedMap_SortedKeys]
    exact (sortSlice_strict _ intLess_strictTotal _ hi).imp
      (fun h => by simpa using h)

/-- C19 on the maps of the two tests: the keys banana, apple, grape, pear come
out as apple, banana, grape, pear, and the keys 3, 1, 2 as 1, 2, 3. -/
theorem NewSortedMap_sorted_keys_witness :
    (fruitMap.map Prod.fst).Nodup ∧ (numberMap.map Prod.fst).Nodup ∧
    (NewSortedMap .string fruitMap).SortedKeys = ["apple", "banana", "grape", "pear"] ∧
    (NewSortedMap .int numberMap).SortedKeys = [1, 2, 3] ∧
    List.Sorted (fun a b => stringLess a b = true) (NewSortedMap .string fruitMap).SortedKeys ∧
    List.Sorted (· < ·) (NewSortedMap .int numberMap).SortedKeys ∧
    mapGet (NewSortedMap .string fruitMap).Original "grape" = some 8 :=
  ⟨by decide, by decide, by decide, by decide,
   (NewSortedMap_sorted_keys fruitMap numberMap (by decide) (by decide)).2.2.1,
   (NewSortedMap_sorted_keys fruitMap numberMap (by decide) (by decide)).2.2.2.2.2.2.1,
   by decide⟩


/-! ## `Last` after an explicit `Order` -/

/-- The state `r.Order(arg).Last()` reaches from a fresh builder: the `Last`
case runs first, on an empty order list, and the `Order` case appends after
it. -/
theorem orderLastChain_state (lower : Char → Char) (r arg : Expr) (hr : r.isCall = false)
    (ho : extractStringArg arg ≠ "") :
    (analyzeGormChain lower (orderLastChain r arg) NewSQLBuilder).2
      = { NewSQLBuilder with OrderBy := ["id DESC", extractStringArg arg], Limit := "1" } := by
  simp only [orderLastChain, analyzeGormChain_call_selector,
    analyzeGormChain_not_qualified lower r _ (isQualifiedCall_of_not_isCall r hr)]
  have hlast : applyMethod lower "Last" [] NewSQLBuilder
      = { NewSQLBuilder with OrderBy := ["id DESC"], Limit := "1" } := rfl
  rw [hlast]
  simp only [applyMethod]
  rw [if_pos ho]
  rfl

/-- The chain `r.Order(arg).Last()` in terms of the token the switch reads: on a
root that is not a call, with an `Order` argument that resolves to a non-empty
token `o`, the chain resolved into a fresh builder leaves the order list equal
to `id DESC`, `o` and the limit equal to `1`, and `BuildSQL` returns
`SELECT * ORDER BY id DESC, o LIMIT 1`: the default order is added although an
`Order` is written before `Last`. -/
theorem order_then_last_token (lower : Char → Char) (r arg : Expr) (hr : r.isCall = false)
    (ho : extractStringArg arg ≠ "") :
    (analyzeGormChain lower (orderLastChain r arg) NewSQLBuilder).2.OrderBy
      = ["id DESC", extractStringArg arg] ∧
    (analyzeGormChain lower (orderLastChain r arg) NewSQLBuilder).2.Limit = "1" ∧
    (BuildSQL (analyzeGormChain lower (orderLastChain r arg) NewSQLBuilder).2).1
      = "SELECT * ORDER BY id DESC, " ++ extractStringArg arg ++ " LIMIT 1" := by
  rw [orderLastChain_state lower r arg hr ho]
  refine ⟨rfl, rfl, ?_⟩
  have hno : Contains "*" "DISTINCT" = false := by decide
  simp only [BuildSQL, buildHead, buildClauses, NewSQLBuilder, hno, Join]
  apply String.ext
  simp [String.data_append]

/-- The chain `db.Order("created_at").Last()`. -/
theorem order_then_last_token_example :
    (Expr.Ident "db").isCall = false ∧
    extractStringArg (strLit "created_at") ≠ "" ∧
    (analyzeGormChain id (orderLastChain (.Ident "db") (strLit "created_at"))
      NewSQLBuilder).2.OrderBy = ["id DESC", "created_at"] ∧
    (analyzeGormChain id (orderLastChain (.Ident "db") (strLit "created_at"))
      NewSQLBuilder).2.Limit = "1" ∧
    (BuildSQL (analyzeGormChain id (orderLastChain (.Ident "db") (strLit "created_at"))
      NewSQLBuilder).2).1 = "SELECT * ORDER BY id DESC, created_at LIMIT 1" :=
  ⟨rfl, by decide, order_then_last_token id (.Ident "db") (strLit "created_at") rfl (by decide)⟩


/-! ## Accumulation in terms of the literals of the source -/

/-- The text of a clean literal is what `extractStringArg` returns, and it
is not empty. -/
theorem extractStringArg_clean (w : String) (h : cleanText w = true) :
    extractStringArg (strLit w) = w ∧ w ≠ "" := by
  unfold cleanText at h
  cases hh : w.data.head? with
  | none => simp [hh] at h
  | some a =>
    cases hl : w.data.getLast? with
    | none => simp [hh, hl] at h
    | some z =>
      simp only [hh, hl, Bool.and_eq_true, Bool.not_eq_true'] at h
      refine ⟨extractStringArg_strLit w ?_ ?_, ?_⟩
      · intro c hc
        rw [hh] at hc
        cases hc
        exact h.1
      · intro c hc
        rw [hl] at hc
        cases hc
        exact h.2
      · intro he
        rw [he] at hh
        cases hh

/-- Two fragment functions that agree on the links of a written chain pick
the same fragments. -/
theorem filterMap_link_eq (f : Link → Option String) (g : SourceLink → Option String)
    (src : List SourceLink) (h : ∀ s ∈ src, f s.link = g s) :
    (src.map SourceLink.link).filterMap f = src.filterMap g := by
  induction src with
  | nil => rfl
  | cons s ss ih =>
    simp only [List.map_cons, List.filterMap_cons, h s (List.mem_cons_self _ _),
      ih (fun t ht => h t (List.mem_cons_of_mem _ ht))]

/-- A part of a join is a segment of the joined string. -/
theorem Join_mem_segment (parts : List String) (sep a : String) (h : a ∈ parts) :
    a.data <:+: (Join parts sep).data := by
  induction parts with
  | nil => cases h
  | cons p ps ih =>
    cases ps with
    | nil =>
      have ha : a = p := by simpa using h
      subst ha
      exact ⟨[], [], by simp [Join]⟩
    | cons q qs =>
      rcases List.mem_cons.mp h with ha | ha
      · subst ha
        exact ⟨[], sep.data ++ (Join (q :: qs) sep).data, by
          simp [Join, String.data_append]⟩
      · obtain ⟨s, t, hst⟩ := ih ha
        exact ⟨p.data ++ sep.data ++ s, t, by
          simp only [Join, String.data_append, ← hst, List.append_assoc]⟩

/-- A clause that `BuildSQL` appends after the switch is a segment of its
output. -/
theorem BuildSQL_clause_segment (b : SQLBuilder) (clause : String)
    (h : clause ∈ buildClauses (buildHead b).2) :
    clause.data <:+: (BuildSQL b).1.data := by
  unfold BuildSQL
  exact Join_mem_segment _ _ _ (List.mem_append_right _ h)

/-- The switch at the head of `BuildSQL` leaves the predicate list alone. -/
theorem buildHead_Where (b : SQLBuilder) : (buildHead b).2.Where = b.Where := by
  cases hop : b.Operation <;> simp only [buildHead, hop]
  split <;> rfl

/-- A builder with predicates has the `WHERE` clause among its clauses. -/
theorem where_clause_mem (b : SQLBuilder) (h : b.Where ≠ []) :
    "WHERE " ++ Join b.Where " AND " ∈ buildClauses b := by
  have hlen : b.Where.length > 0 := List.length_pos.mpr h
  simp [buildClauses, hlen]

/-- A call that meets the premise without a string literal is no call of an
accumulating method. -/
theorem plain_call_method (m : String) (args : List Expr)
    (h : (SourceLink.call m args).plain = true) : ∀ x ∈ accumulating, m ≠ x := by
  simp only [SourceLink.plain, Bool.not_eq_true', List.contains_eq_any_beq,
    List.any_eq_false, beq_iff_eq] at h
  exact fun x hx e => h x hx e

/-- The token of a written link with a clean literal is the literal's text. -/
theorem firstArgToken_literal (m w : String) (rest : List Expr) (h : cleanText w = true) :
    firstArgToken (SourceLink.literal m w rest).link = some w := by
  obtain ⟨he, hne⟩ := extractStringArg_clean w h
  simp [SourceLink.link, firstArgToken, he, hne]

/-- On a written link that meets the premise, the predicate the switch appends
is the literal's text. -/
theorem whereFragment_plain (s : SourceLink) (h : s.plain = true) :
    whereFragment s.link = s.textFor ["Where", "And", "Or"] := by
  cases s with
  | literal m w rest =>
    have ht := firstArgToken_literal m w rest h
    have hm : (SourceLink.literal m w rest).link.method = m := rfl
    by_cases hc : m = "Where" ∨ m = "And" ∨ m = "Or"
    · have hl : ["Where", "And", "Or"].contains m = true := by
        rcases hc with hc | hc | hc <;> subst hc <;> decide
      simp only [whereFragment, SourceLink.textFor, hm, hc, if_true, ht, hl]
    · have hl : ["Where", "And", "Or"].contains m = false := by
        simp only [not_or] at hc
        simp [hc.1, hc.2.1, hc.2.2]
      simp [whereFragment, SourceLink.textFor, hm, hc, hl]
  | call m args =>
    have hn := plain_call_method m args h
    have h1 : m ≠ "Where" := hn _ (by decide)
    have h2 : m ≠ "And" := hn _ (by decide)
    have h3 : m ≠ "Or" := hn _ (by decide)
    simp [SourceLink.link, SourceLink.textFor, whereFragment, h1, h2, h3]

/-- On a written link that meets the premise, the fragment appended to the
order, group or having list is the literal's text. -/
theorem singleFragment_plain (s : SourceLink) (h : s.plain = true) :
    orderFragment s.link = s.textFor ["Order"] ∧
    groupFragment s.link = s.textFor ["Group"] ∧
    havingFragment s.link = s.textFor ["Having"] := by
  cases s with
  | literal m w rest =>
    have ht := firstArgToken_literal m w rest h
    have hm : (SourceLink.literal m w rest).link.method = m := rfl
    simp only [orderFragment, groupFragment, havingFragment, SourceLink.textFor, hm, ht]
    refine ⟨?_, ?_, ?_⟩ <;> split <;> rename_i hc <;> simp [hc]
  | call m args =>
    have hn := plain_call_method m args h
    have h1 : m ≠ "Order" := hn _ (by decide)
    have h2 : m ≠ "Group" := hn _ (by decide)
    have h3 : m ≠ "Having" := hn _ (by decide)
    simp [SourceLink.link, SourceLink.textFor, orderFragment, groupFragment, havingFragment,
      h1, h2, h3]

/-- On a written link that meets the premise, the join fragment the switch
appends is the keyword of the method and the literal's text. -/
theorem joinFragment_plain (s : SourceLink) (h : s.plain = true) :
    joinFragment s.link = s.joinText := by
  cases s with
  | literal m w rest =>
    have ht := firstArgToken_literal m w rest h
    have hm : (SourceLink.literal m w rest).link.method = m := rfl
    simp only [joinFragment, joinKeyword, SourceLink.joinText, hm, ht]
    split_ifs <;> rfl
  | call m args =>
    have hn := plain_call_method m args h
    have h1 : m ≠ "Joins" := hn _ (by decide)
    have h2 : m ≠ "InnerJoins" := hn _ (by decide)
    have h3 : m ≠ "LeftJoins" := hn _ (by decide)
    have h4 : m ≠ "RightJoins" := hn _ (by decide)
    simp [SourceLink.link, SourceLink.joinText, joinFragment, h1, h2, h3, h4]

/-- C16 (counterexample): in `db.Order("age").Order("name").Last()` the `Order`
calls have the non-empty string literals `age`, `name` in source order, and the
order list after resolution is `id DESC`, `name`, `age`, not `name`, `age`. -/
theorem accumulation_reversed_counterexample :
    (Expr.Ident "db").isCall = false ∧
    (analyzeGormChain id (chainOf (.Ident "db") twoOrdersLast) NewSQLBuilder).2.OrderBy
      = ["id DESC", "name", "age"] ∧
    (analyzeGormChain id (chainOf (.Ident "db") twoOrdersLast) NewSQLBuilder).2.OrderBy
      ≠ ["name", "age"] := by
  decide

/-- C16 (amended): on a root that is not a call, take a chain written as `src`
in which every string literal has a non-empty text with no quote character at
either end and every call of an accumulating method is written with such a
literal. Resolved into a fresh builder, the chain leaves the predicate list
equal to the texts of its `Where` (and `And`, `Or`) calls in the reverse of
source order, and the output of `BuildSQL` contains `WHERE ` followed by these
texts joined by ` AND ` in that reversed order. The group, having and join
lists are reversed in the same way, and so is the order list when no link of
the chain is `Last`. -/
theorem accumulation_reversed (lower : Char → Char) (root : Expr) (src : List SourceLink)
    (hroot : root.isCall = false) (hsrc : ∀ s ∈ src, s.plain = true) :
    (analyzeGormChain lower (chainOf root (src.map SourceLink.link).reverse) NewSQLBuilder).2.Where
      = (textsOf ["Where", "And", "Or"] src).reverse ∧
    (textsOf ["Where", "And", "Or"] src ≠ [] →
      ("WHERE " ++ Join (textsOf ["Where", "And", "Or"] src).reverse " AND ").data <:+:
        (BuildSQL (analyzeGormChain lower (chainOf root (src.map SourceLink.link).reverse)
          NewSQLBuilder).2).1.data) ∧
    (analyzeGormChain lower (chainOf root (src.map SourceLink.link).reverse)
      NewSQLBuilder).2.GroupBy = (textsOf ["Group"] src).reverse ∧
    (analyzeGormChain lower (chainOf root (src.map SourceLink.link).reverse)
      NewSQLBuilder).2.Having = (textsOf ["Having"] src).reverse ∧
    (analyzeGormChain lower (chainOf root (src.map SourceLink.link).reverse)
      NewSQLBuilder).2.Joins = (joinTextsOf src).reverse ∧
    ((∀ s ∈ src, s.link.method ≠ "Last") →
      (analyzeGormChain lower (chainOf root (src.map SourceLink.link).reverse)
        NewSQLBuilder).2.OrderBy = (textsOf ["Order"] src).reverse) := by
  obtain ⟨hw, -, hg, hh, hj, ho⟩ := accumulation_tokens lower root (src.map SourceLink.link)
    (isQualifiedCall_of_not_isCall root hroot)
  have ew : (src.map SourceLink.link).filterMap whereFragment
      = textsOf ["Where", "And", "Or"] src :=
    filterMap_link_eq _ _ src (fun s hs => whereFragment_plain s (hsrc s hs))
  have eo : (src.map SourceLink.link).filterMap orderFragment = textsOf ["Order"] src :=
    filterMap_link_eq _ _ src (fun s hs => (singleFragment_plain s (hsrc s hs)).1)
  have eg : (src.map SourceLink.link).filterMap groupFragment = textsOf ["Group"] src :=
    filterMap_link_eq _ _ src (fun s hs => (singleFragment_plain s (hsrc s hs)).2.1)
  have eh : (src.map SourceLink.link).filterMap havingFragment = textsOf ["Having"] src :=
    filterMap_link_eq _ _ src (fun s hs => (singleFragment_plain s (hsrc s hs)).2.2)
  have ej : (src.map SourceLink.link).filterMap joinFragment = joinTextsOf src :=
    filterMap_link_eq _ _ src (fun s hs => joinFragment_plain s (hsrc s hs))
  rw [ew] at hw
  rw [eg] at hg
  rw [eh] at hh
  rw [ej] at hj
  refine ⟨hw, fun hne => ?_, hg, hh, hj, fun hlast => ?_⟩
  · apply BuildSQL_clause_segment
    have hmem := where_clause_mem (buildHead (analyzeGormChain lower
      (chainOf root (src.map SourceLink.link).reverse) NewSQLBuilder).2).2
      (by rw [buildHead_Where, hw]; simpa using hne)
    rw [buildHead_Where, hw] at hmem
    exact hmem
  · have := ho (fun l hl => by
      obtain ⟨s, hs, rfl⟩ := List.mem_map.mp hl
      exact hlast s hs)
    rw [eo] at this
    exact this

/-- C16 (amended) on
`db.Where("a = 1").Group("kind").Session(cfg).Where("b = 2", x).LeftJoins("teams t").Group("area")`:
the predicate list is `b = 2`, `a = 1`, the output contains
`WHERE b = 2 AND a = 1`, the group list is `area`, `kind`, and the join list is
`LEFT JOIN teams t`. -/
theorem accumulation_reversed_witness :
    (Expr.Ident "db").isCall = false ∧
    (∀ s ∈ twoWheresWritten, s.plain = true) ∧
    (analyzeGormChain id (chainOf (.Ident "db") (twoWheresWritten.map SourceLink.link).reverse)
      NewSQLBuilder).2.Where = ["b = 2", "a = 1"] ∧
    ("WHERE " ++ Join ["b = 2", "a = 1"] " AND ").data <:+:
      (BuildSQL (analyzeGormChain id
        (chainOf (.Ident "db") (twoWheresWritten.map SourceLink.link).reverse)
        NewSQLBuilder).2).1.data ∧
    (analyzeGormChain id (chainOf (.Ident "db") (twoWheresWritten.map SourceLink.link).reverse)
      NewSQLBuilder).2.GroupBy = ["area", "kind"] ∧
    (analyzeGormChain id (chainOf (.Ident "db") (twoWheresWritten.map SourceLink.link).reverse)
      NewSQLBuilder).2.Joins = ["LEFT JOIN teams t"] :=
  ⟨rfl, by decide,
   (accumulation_reversed id (.Ident "db") twoWheresWritten rfl (by decide)).1,
   (accumulation_reversed id (.Ident "db") twoWheresWritten rfl (by decide)).2.1 (by decide),
   (accumulation_reversed id (.Ident "db") twoWheresWritten rfl (by decide)).2.2.1,
   (accumulation_reversed id (.Ident "db") twoWheresWritten rfl (by decide)).2.2.2.2.1⟩

/-- The chain of the C16 witness renders to
`SELECT * LEFT JOIN teams t WHERE b = 2 AND a = 1 GROUP BY area, kind`. -/
theorem twoWheresWritten_renders :
    (BuildSQL (analyzeGormChain id
      (chainOf (.Ident "db") (twoWheresWritten.map SourceLink.link).reverse)
      NewSQLBuilder).2).1
      = "SELECT * LEFT JOIN teams t WHERE b = 2 AND a = 1 GROUP BY area, kind" := by
  decide

/-- A `Where` call whose literal has a quote character at the end of its text
leaves a predicate that is not the text: `db.Where("status = 'active'")` gives
the predicate `status = 'active`. -/
theorem where_literal_with_quote :
    cleanText "status = 'active'" = false ∧
    (analyzeGormChain id (chainOf (.Ident "db") [⟨"Where", [strLit "status = 'active'"]⟩])
      NewSQLBuilder).2.Where = ["status = 'active"] := by
  decide

/-! ## `Last` after an `Order` with a string literal -/

/-- The chain `r.Order("o").Last()` for a literal with a clean text `o`: on a
root that is not a call the order list is `id DESC`, `o`, the limit is `1`, and
`BuildSQL` returns `SELECT * ORDER BY id DESC, o LIMIT 1`. -/
theorem order_then_last_literal (lower : Char → Char) (r : Expr) (o : String)
    (hr : r.isCall = false) (ho : cleanText o = true) :
    (analyzeGormChain lower (orderLastChain r (strLit o)) NewSQLBuilder).2.OrderBy
      = ["id DESC", o] ∧
    (analyzeGormChain lower (orderLastChain r (strLit o)) NewSQLBuilder).2.Limit = "1" ∧
    (BuildSQL (analyzeGormChain lower (orderLastChain r (strLit o)) NewSQLBuilder).2).1
      = "SELECT * ORDER BY id DESC, " ++ o ++ " LIMIT 1" := by
  obtain ⟨he, hne⟩ := extractStringArg_clean o ho
  have h := order_then_last_token lower r (strLit o) hr (by rw [he]; exact hne)
  rw [he] at h
  exact h

/-- C21 (evaluation at the failing input): `db.Order("role = 'admin'").Last()`
has the non-empty string literal `role = 'admin'`. Resolved into a fresh
builder it leaves the order list `id DESC`, `role = 'admin` and `BuildSQL`
returns `SELECT * ORDER BY id DESC, role = 'admin LIMIT 1`: the closing quote of
the literal's text is lost. With the non-empty literal `'` the order list is
`id DESC` alone. -/
theorem order_then_last_strips_quote :
    (analyzeGormChain id (orderLastChain (.Ident "db") (strLit "role = 'admin'"))
      NewSQLBuilder).2.OrderBy = ["id DESC", "role = 'admin"] ∧
    (analyzeGormChain id (orderLastChain (.Ident "db") (strLit "role = 'admin'"))
      NewSQLBuilder).2.Limit = "1" ∧
    (BuildSQL (analyzeGormChain id (orderLastChain (.Ident "db") (strLit "role = 'admin'"))
      NewSQLBuilder).2).1 = "SELECT * ORDER BY id DESC, role = 'admin LIMIT 1" ∧
    (BuildSQL (analyzeGormChain id (orderLastChain (.Ident "db") (strLit "role = 'admin'"))
      NewSQLBuilder).2).1 ≠ "SELECT * ORDER BY id DESC, role = 'admin' LIMIT 1" ∧
    (analyzeGormChain id (orderLastChain (.Ident "db") (strLit "'"))
      NewSQLBuilder).2.OrderBy = ["id DESC"] := by
  decide


end Gorm
